import Mathlib

/-!
Verification of the imgblender blending pipeline.

The embedding models numpy float arrays as a shape (list of axis extents)
together with flat data in C order (last axis fastest).  Array values are
rationals: the source's arithmetic (add, mul, div, compare) is exact on the
inputs used here, and every division in the source is guarded, so rational
arithmetic mirrors the float computation at the level of the claims.
Fallible numpy operations (list indexing, shape-mismatched assignment or
arithmetic) are modelled in `Except String`.  Elementwise arithmetic on two
arrays is modelled for the equal-shape case and returns an error otherwise;
numpy broadcasting between unequal-but-compatible shapes is outside the
scope of every statement proved below.
-/

namespace ImgBlender

/-- An n-dimensional numeric array: axis extents plus flat data in C order. -/
structure NDArray where
  shape : List ℕ
  data : List ℚ
deriving DecidableEq, Repr

/-- Well-formedness: the flat data has exactly one entry per index tuple. -/
def NDArray.wf (a : NDArray) : Prop := a.data.length = a.shape.prod

/-- C-order flat offset of multi-index `ix` inside `shape`:
`((ix0 * s1 + ix1) * s2 + ix2) * ...`, numpy's row-major layout. -/
def flatIdx (shape ix : List ℕ) : ℕ :=
  (shape.zip ix).foldl (fun acc p => acc * p.1 + p.2) 0

/-- All multi-indices of `shape`, enumerated in C order. -/
def allIdx : List ℕ → List (List ℕ)
  | [] => [[]]
  | s :: rest => (List.range s).flatMap (fun i => (allIdx rest).map (fun ix => i :: ix))

/-- A multi-index is valid for a shape when it has the same length and is
componentwise below the extents. -/
def validIx : List ℕ → List ℕ → Bool
  | [], [] => true
  | s :: ss, i :: ii => i < s && validIx ss ii
  | _, _ => false

/-- Value of the array at a multi-index (0 when out of range). -/
def NDArray.atIdx (a : NDArray) (ix : List ℕ) : ℚ :=
  a.data.getD (flatIdx a.shape ix) 0

theorem validIx_length {s ix : List ℕ} (h : validIx s ix = true) :
    ix.length = s.length := by
  induction s generalizing ix with
  | nil => cases ix with
    | nil => rfl
    | cons i ii => simp [validIx] at h
  | cons s ss IH => cases ix with
    | nil => simp [validIx] at h
    | cons i ii =>
      simp only [validIx, Bool.and_eq_true] at h
      simp [validIx, IH h.2]

theorem length_allIdx (s : List ℕ) : (allIdx s).length = s.prod := by
  induction s with
  | nil => rfl
  | cons s ss IH =>
    simp only [allIdx, List.length_flatMap, List.prod_cons]
    have : (List.map (List.length ∘ fun i => (allIdx ss).map (fun ix => i :: ix))
        (List.range s)) = List.map (fun _ => ss.prod) (List.range s) := by
      refine List.map_congr_left (fun i _ => ?_)
      simp [IH]
    rw [this, List.map_const', List.sum_replicate, List.length_range, smul_eq_mul]

theorem foldl_flat_shift (l : List (ℕ × ℕ)) (c : ℕ) :
    l.foldl (fun acc p => acc * p.1 + p.2) c
      = c * (l.map Prod.fst).prod + l.foldl (fun acc p => acc * p.1 + p.2) 0 := by
  induction l generalizing c with
  | nil => simp
  | cons p l IH =>
    simp only [List.foldl_cons, List.map_cons, List.prod_cons]
    rw [IH (c * p.1 + p.2), IH (0 * p.1 + p.2)]
    ring

theorem flatIdx_cons {s0 : ℕ} {ss ix : List ℕ} (i : ℕ) (h : ix.length = ss.length) :
    flatIdx (s0 :: ss) (i :: ix) = i * ss.prod + flatIdx ss ix := by
  simp only [flatIdx, List.zip_cons_cons, List.foldl_cons]
  rw [foldl_flat_shift]
  have : (ss.zip ix).map Prod.fst = ss := by
    rw [List.map_fst_zip]
    omega
  rw [this]
  simp

theorem flatIdx_lt_prod {s ix : List ℕ} (h : validIx s ix = true) :
    flatIdx s ix < s.prod := by
  induction s generalizing ix with
  | nil =>
    cases ix with
    | nil => simp [flatIdx]
    | cons i ii => simp [validIx] at h
  | cons s ss IH =>
    cases ix with
    | nil => simp [validIx] at h
    | cons i ii =>
      simp only [validIx, Bool.and_eq_true, decide_eq_true_eq] at h
      rw [flatIdx_cons i (validIx_length h.2)]
      have h2 := IH h.2
      calc i * ss.prod + flatIdx ss ii < i * ss.prod + ss.prod := by omega
        _ = (i + 1) * ss.prod := by ring
        _ ≤ s * ss.prod := Nat.mul_le_mul_right _ h.1
        _ = (s :: ss).prod := by simp

theorem getElem?_flatMap_uniform {α β : Type} (L : List α) (g : α → List β) (P : ℕ)
    (hg : ∀ x ∈ L, (g x).length = P) (i m : ℕ) (hm : m < P) (hi : i < L.length) :
    (L.flatMap g)[i * P + m]? = (g (L.get ⟨i, hi⟩))[m]? := by
  induction L generalizing i with
  | nil => simp at hi
  | cons x L IH =>
    simp only [List.flatMap_cons]
    cases i with
    | zero =>
      have hx : (g x).length = P := hg x (by simp)
      rw [List.getElem?_append_left (by omega)]
      simp
    | succ i =>
      have hx : (g x).length = P := hg x (by simp)
      have hlen : (g x).length ≤ (i + 1) * P + m := by
        have : P ≤ (i + 1) * P + m := by
          have := Nat.le_add_right P (i * P + m)
          calc P ≤ P + (i * P + m) := Nat.le_add_right _ _
            _ = (i + 1) * P + m := by ring
        omega
      rw [List.getElem?_append_right hlen]
      have harith : (i + 1) * P + m - (g x).length = i * P + m := by
        rw [hx]; ring_nf; omega
      rw [harith]
      have hi' : i < L.length := by simpa using Nat.lt_of_succ_lt_succ hi
      rw [IH (fun y hy => hg y (by simp [hy])) i hi']
      rfl

theorem allIdx_getElem? {s ix : List ℕ} (h : validIx s ix = true) :
    (allIdx s)[flatIdx s ix]? = some ix := by
  induction s generalizing ix with
  | nil =>
    cases ix with
    | nil => simp [allIdx, flatIdx]
    | cons i ii => simp [validIx] at h
  | cons s ss IH =>
    cases ix with
    | nil => simp [validIx] at h
    | cons i ii =>
      simp only [validIx, Bool.and_eq_true, decide_eq_true_eq] at h
      rw [flatIdx_cons i (validIx_length h.2)]
      have hi : i < (List.range s).length := by simpa using h.1
      rw [allIdx,
        getElem?_flatMap_uniform (List.range s) _ ss.prod
          (fun x _ => by simp [length_allIdx]) i (flatIdx ss ii)
          (flatIdx_lt_prod h.2) hi]
      have : (List.range s).get ⟨i, hi⟩ = i := List.getElem_range i hi
      rw [this, List.getElem?_map, IH h.2]
      rfl

/-- Looking up a generated array at a valid multi-index evaluates the
generator at that index. -/
theorem getD_map_allIdx {s ix : List ℕ} (f : List ℕ → ℚ)
    (h : validIx s ix = true) :
    ((allIdx s).map f).getD (flatIdx s ix) 0 = f ix := by
  rw [List.getD_eq_getElem?_getD, List.getElem?_map, allIdx_getElem? h]
  rfl

instance {ε α : Type} [DecidableEq ε] [DecidableEq α] : DecidableEq (Except ε α) := fun x y =>
  match x, y with
  | .ok a, .ok b =>
    if h : a = b then .isTrue (by rw [h]) else .isFalse (by intro hc; cases hc; exact h rfl)
  | .error e, .error e' =>
    if h : e = e' then .isTrue (by rw [h]) else .isFalse (by intro hc; cases hc; exact h rfl)
  | .ok _, .error _ => .isFalse (by intro hc; cases hc)
  | .error _, .ok _ => .isFalse (by intro hc; cases hc)

/-! Per-pixel blend algorithms, each translated from the body of the
correspondingly named function in blends.py.  Boolean-mask assignments in
the source (`ab[m] = expr[m]` with the same mask on both sides) are
elementwise selections, so each body is a per-pixel function applied under
`elemwise` below. -/

/-- Body of `replace`: `return b`. -/
def replacePx (_x y : ℚ) : ℚ := y

/-- Body of `darker`: `ab = a.copy(); ab[b < a] = b[b < a]`. -/
def darkerPx (x y : ℚ) : ℚ := if y < x then y else x

/-- Body of `multiply`: `return a * b`. -/
def multiplyPx (x y : ℚ) : ℚ := x * y

/-- Body of `color_burn`: `m = b != 0; ab[m] = 1 - (1 - a[m]) / b[m]; ab[~m] = 0`. -/
def color_burnPx (x y : ℚ) : ℚ := if y ≠ 0 then 1 - (1 - x) / y else 0

/-- Body of `linear_burn`: `return a + b - 1`. -/
def linear_burnPx (x y : ℚ) : ℚ := x + y - 1

/-- Body of `lighter`: `ab = a.copy(); ab[b > a] = b[b > a]`. -/
def lighterPx (x y : ℚ) : ℚ := if y > x then y else x

/-- Body of `screen`: `1 - (1 - a) * (1 - b)`. -/
def screenPx (x y : ℚ) : ℚ := 1 - (1 - x) * (1 - y)

/-- Body of `color_dodge`: `ab = ones; ab[b != 1] = a[b != 1] / (1 - b[b != 1])`. -/
def color_dodgePx (x y : ℚ) : ℚ := if y ≠ 1 then x / (1 - y) else 1

/-- Body of `linear_dodge`: `return a + b`. -/
def linear_dodgePx (x y : ℚ) : ℚ := x + y

/-- Body of `difference`: `np.abs(a - b)`. -/
def differencePx (x y : ℚ) : ℚ := |x - y|

/-- Body of `exclusion`: `a + b - 2 * a * b`. -/
def exclusionPx (x y : ℚ) : ℚ := x + y - 2 * x * y

/-- Body of `hard_light`: `ab[a < .5] = 2ab; ab[a >= .5] = 1 - 2(1-a)(1-b)`. -/
def hard_lightPx (x y : ℚ) : ℚ := if x < 1/2 then 2 * x * y else 1 - 2 * (1 - x) * (1 - y)

/-- Body of `hard_mix`: `ab = zeros; ab[a < 1 - b] = 0; ab[a > 1 - b] = 1`
(the tie `a = 1 - b` keeps the initial zero). -/
def hard_mixPx (x y : ℚ) : ℚ := if x < 1 - y then 0 else if 1 - y < x then 1 else 0

/-- Body of `linear_light`: `ab = b + 2 * a - 1`. -/
def linear_lightPx (x y : ℚ) : ℚ := y + 2 * x - 1

/-- Body of `overlay`: `mask = a >= .5; ab[~mask] = 2ab; ab[mask] = 1 - 2(1-a)(1-b)`. -/
def overlayPx (x y : ℚ) : ℚ := if 1/2 ≤ x then 1 - 2 * (1 - x) * (1 - y) else 2 * x * y

/-- Body of `pin_light`: masks `m1 : b < 2a - 1` (value `2a - 1`),
`m2 : b > 2a` (value `2a`), `m3 = ~m1 \ m2` (value `b`); m1 and m2 are
disjoint since `2a - 1 < 2a`. -/
def pin_lightPx (x y : ℚ) : ℚ :=
  if y < 2 * x - 1 then 2 * x - 1 else if y > 2 * x then 2 * x else y

/-- Body of `vivid_light`: masks `m1 : a <= .5` minus `a == 0` and
`m2 : a > .5` minus `a == 1`; positions in neither mask keep the initial 0. -/
def vivid_lightPx (x y : ℚ) : ℚ :=
  if x ≤ 1/2 ∧ x ≠ 0 then 1 - (1 - y) / (2 * x)
  else if 1/2 < x ∧ x ≠ 1 then y / (2 * (1 - x))
  else 0

/-- Elementwise application of a per-pixel blend to two arrays.  The numpy
bodies operate elementwise and require equal shapes; unequal shapes are an
error here (broadcasting between unequal shapes is not modelled). -/
def elemwise (f : ℚ → ℚ → ℚ) (a b : NDArray) : Except String NDArray :=
  if a.shape = b.shape then .ok ⟨a.shape, List.zipWith f a.data b.data⟩
  else .error "broadcast"

/-! The decorator stages from common.py. -/

/-- Pointwise clamp done by `will_clip`: `ab[ab < 0.0] = 0.0; ab[ab > 1.0] = 1.0`. -/
def clampQ (x : ℚ) : ℚ := if x < 0 then 0 else if 1 < x then 1 else x

/-- The `will_clip` stage (common.py lines 60-72), applied to the result of
the wrapped call. -/
def will_clip (ab : NDArray) : NDArray := ⟨ab.shape, ab.data.map clampQ⟩

/-- The fade mix of `can_fade` (common.py lines 18-36): returns `ab`
untouched when `fade == 1.0`, else computes `a + (ab - a) * fade`.
The arithmetic needs `a` and `ab` of one shape; other cases error. -/
def can_fade (a ab : NDArray) (fade : ℚ) : Except String NDArray :=
  if fade = 1 then .ok ab
  else if a.shape = ab.shape then
    .ok ⟨a.shape, List.zipWith (fun x y => x + (y - x) * fade) a.data ab.data⟩
  else .error "broadcast"

/-- Three-list zipWith, for the mask mix. -/
def zipWith3 (f : ℚ → ℚ → ℚ → ℚ) : List ℚ → List ℚ → List ℚ → List ℚ
  | x :: xs, y :: ys, z :: zs => f x y z :: zipWith3 f xs ys zs
  | _, _, _ => []

/-- The mask mix of `can_mask` (common.py lines 39-57): returns `ab`
untouched when no mask is given, else computes `a * (1 - mask) + ab * mask`.
The arithmetic needs all three shapes equal; other cases error. -/
def can_mask (a ab : NDArray) (mask : Option NDArray) : Except String NDArray :=
  match mask with
  | none => .ok ab
  | some m =>
    if a.shape = ab.shape ∧ m.shape = ab.shape then
      .ok ⟨a.shape, zipWith3 (fun x y w => x * (1 - w) + y * w) a.data ab.data m.data⟩
    else .error "broadcast"

/-- `_grayscale_to_rgb` (common.py lines 141-147): shape gains a final
axis of extent 3, and `new_a[..., channel] = a` for each of the three
channels puts a copy of each value at the three channel slots, which in C
order is each flat value repeated three times. -/
def grayscale_to_rgb (a : NDArray) : NDArray :=
  ⟨a.shape ++ [3], a.data.flatMap (fun v => [v, v, v])⟩

/-- The argument transformation of `will_colorize` (common.py lines 75-97):
when enabled and exactly one array has one more axis ending in extent 3,
the other is promoted; otherwise both pass through.  `b.shape[-1]` is only
evaluated when `b` has more axes than `a`, hence is never an empty-shape
lookup. -/
def will_colorize (colorize : Bool) (a b : NDArray) : NDArray × NDArray :=
  if colorize then
    if a.shape.length + 1 = b.shape.length ∧ b.shape.getLast? = some 3 then
      (grayscale_to_rgb a, b)
    else if b.shape.length + 1 = a.shape.length ∧ a.shape.getLast? = some 3 then
      (a, grayscale_to_rgb b)
    else (a, b)
  else (a, b)

/-- `_resize_array` (common.py lines 150-164).  `size_diff`, `pad` and
`end` come from `zip(size, a.shape)`, which truncates to the shorter list;
the assignment `resized[pad[Z]:end[Z], pad[Y]:end[Y], pad[X]:end[X]] = a`
indexes `pad` at 2 (`X`), an IndexError when fewer than three axes were
zipped, and slices exactly the first three axes of `resized`, so trailing
axes of `a` must match the target extent (or be 1, numpy broadcasting, in
which case the single slice is replicated).  A target extent below the
source extent would make `pad` negative and slice with wraparound; that
region is outside every call made by `will_match_size` and is modelled as
an error. -/
def resize_array (a : NDArray) (size : List ℕ) (fill : ℚ := 0) : Except String NDArray :=
  let zipped := size.zip a.shape
  let pad := zipped.map (fun p => (p.1 - p.2) / 2)
  if pad.length < 3 then .error "IndexError"
  else if zipped.any (fun p => p.1 < p.2) then .error "negative pad not modelled"
  else if ¬ a.shape.length = size.length then .error "broadcast"
  else if ¬ (List.range size.length).all (fun j =>
      decide (j < 3) || decide (a.shape.getD j 1 = size.getD j 1)
        || decide (a.shape.getD j 1 = 1)) then .error "broadcast"
  else .ok ⟨size, (allIdx size).map (fun (ix : List ℕ) =>
    let inside : Bool := (List.range 3).all (fun j =>
      decide (pad.getD j 0 ≤ ix.getD j 0)
        && decide (ix.getD j 0 < pad.getD j 0 + a.shape.getD j 0))
    if inside then
      a.atIdx ((List.range size.length).map (fun j =>
        if j < 3 then ix.getD j 0 - pad.getD j 0
        else if a.shape.getD j 1 = 1 then 0 else ix.getD j 0))
    else fill)⟩

/-- The argument transformation of `will_match_size` (common.py lines
100-119): the target size is the per-axis max of the zipped shapes, and
both arrays are resized to it unconditionally. -/
def will_match_size (a b : NDArray) : Except String (NDArray × NDArray) := do
  let size := List.zipWith max a.shape b.shape
  let a2 ← resize_array a size
  let b2 ← resize_array b size
  .ok (a2, b2)

/-- One composed blend operation, the decorator stack of blends.py:
`will_clip` present, `can_mask`, `can_fade`, `will_match_size`,
`will_colorize`, innermost the per-pixel body.  Argument preprocessing runs
outside-in (size before colorize), result postprocessing inside-out (fade,
then mask, then clip); fade and mask mix against the caller's original
base array `a`. -/
def composedOp (clip : Bool) (f : ℚ → ℚ → ℚ) (a b : NDArray)
    (colorize : Bool := true) (fade : ℚ := 1) (mask : Option NDArray := none) :
    Except String NDArray := do
  let (a1, b1) ← will_match_size a b
  let (a2, b2) := will_colorize colorize a1 b1
  let ab0 ← elemwise f a2 b2
  let ab1 ← can_fade a ab0 fade
  let ab2 ← can_mask a ab1 mask
  .ok (if clip then will_clip ab2 else ab2)

/-! The published catalog operations.  In blends.py every entry carries
`@will_clip` except `replace`. -/

/-- Composed `replace` (no `will_clip` in its decorator stack). -/
def replace (a b : NDArray) (colorize : Bool := true) (fade : ℚ := 1)
    (mask : Option NDArray := none) : Except String NDArray :=
  composedOp false replacePx a b colorize fade mask

/-- Composed `darker` (with `will_clip`). -/
def darker (a b : NDArray) (colorize : Bool := true) (fade : ℚ := 1)
    (mask : Option NDArray := none) : Except String NDArray :=
  composedOp true darkerPx a b colorize fade mask

/-- Composed `lighter` (with `will_clip`). -/
def lighter (a b : NDArray) (colorize : Bool := true) (fade : ℚ := 1)
    (mask : Option NDArray := none) : Except String NDArray :=
  composedOp true lighterPx a b colorize fade mask

/-- Composed `multiply` (with `will_clip`). -/
def multiply (a b : NDArray) (colorize : Bool := true) (fade : ℚ := 1)
    (mask : Option NDArray := none) : Except String NDArray :=
  composedOp true multiplyPx a b colorize fade mask

/-- Composed `color_burn` (with `will_clip`). -/
def color_burn (a b : NDArray) (colorize : Bool := true) (fade : ℚ := 1)
    (mask : Option NDArray := none) : Except String NDArray :=
  composedOp true color_burnPx a b colorize fade mask

/-- Composed `color_dodge` (with `will_clip`). -/
def color_dodge (a b : NDArray) (colorize : Bool := true) (fade : ℚ := 1)
    (mask : Option NDArray := none) : Except String NDArray :=
  composedOp true color_dodgePx a b colorize fade mask

/-- Composed `vivid_light` (with `will_clip`). -/
def vivid_light (a b : NDArray) (colorize : Bool := true) (fade : ℚ := 1)
    (mask : Option NDArray := none) : Except String NDArray :=
  composedOp true vivid_lightPx a b colorize fade mask

/-! Supporting lemmas about the array model. -/

/-- Values of an array lie in the normalized image range. -/
def NDArray.inRange (a : NDArray) : Prop := ∀ v ∈ a.data, 0 ≤ v ∧ v ≤ 1

theorem allIdx_inv {s : List ℕ} :
    ∀ n, n < s.prod →
      ∃ ix, (allIdx s)[n]? = some ix ∧ validIx s ix = true ∧ flatIdx s ix = n := by
  induction s with
  | nil =>
    intro n hn
    have hn0 : n = 0 := by simpa using hn
    subst hn0
    exact ⟨[], rfl, rfl, rfl⟩
  | cons s ss IH =>
    intro n hn
    have hn' : n < s * ss.prod := by simpa [List.prod_cons] using hn
    have hP : 0 < ss.prod := by
      rcases Nat.eq_zero_or_pos ss.prod with h | h
      · rw [h, Nat.mul_zero] at hn'; omega
      · exact h
    have hm : n % ss.prod < ss.prod := Nat.mod_lt _ hP
    have hi : n / ss.prod < s := Nat.div_lt_of_lt_mul (Nat.mul_comm s ss.prod ▸ hn')
    have hsplit : n / ss.prod * ss.prod + n % ss.prod = n := by
      rw [Nat.mul_comm]; exact Nat.div_add_mod n ss.prod
    obtain ⟨ix', h1, h2, h3⟩ := IH (n % ss.prod) hm
    refine ⟨n / ss.prod :: ix', ?_, ?_, ?_⟩
    · have hrange : n / ss.prod < (List.range s).length := by simpa using hi
      have hstep := getElem?_flatMap_uniform (List.range s)
        (fun i => (allIdx ss).map (fun ix => i :: ix)) ss.prod
        (fun x _ => by simp [length_allIdx]) (n / ss.prod) (n % ss.prod) hm hrange
      rw [hsplit] at hstep
      rw [allIdx, hstep, List.getElem?_map, h1]
      simp [List.getElem_range]
    · simp [validIx, hi, h2]
    · rw [flatIdx_cons _ (validIx_length h2), h3]
      exact hsplit

/-- Reading a well-formed array back at every index in C order reproduces
its flat data. -/
theorem map_atIdx_allIdx (a : NDArray) (h : a.wf) :
    (allIdx a.shape).map a.atIdx = a.data := by
  apply List.ext_getElem?
  intro n
  by_cases hn : n < a.shape.prod
  · obtain ⟨ix, h1, h2, h3⟩ := allIdx_inv n hn
    rw [List.getElem?_map, h1]
    have hdata : n < a.data.length := by rw [h]; exact hn
    rw [List.getElem?_eq_getElem hdata]
    simp only [Option.map_some']
    congr 1
    rw [NDArray.atIdx, h3, List.getD_eq_getElem?_getD, List.getElem?_eq_getElem hdata]
    rfl
  · rw [List.getElem?_eq_none, List.getElem?_eq_none]
    · rw [h]; omega
    · rw [List.length_map, length_allIdx]; omega

theorem mem_allIdx_valid {s : List ℕ} {ix : List ℕ} (h : ix ∈ allIdx s) :
    validIx s ix = true := by
  induction s generalizing ix with
  | nil => simp only [allIdx, List.mem_singleton] at h; subst h; rfl
  | cons s ss IH =>
    simp only [allIdx, List.mem_flatMap, List.mem_map, List.mem_range] at h
    obtain ⟨i, hi, ix', hix', rfl⟩ := h
    simp [validIx, hi, IH hix']

theorem getD_zipWith {f : ℚ → ℚ → ℚ} {l l' : List ℚ} {n : ℕ}
    (hn : n < (List.zipWith f l l').length) :
    (List.zipWith f l l').getD n 0 = f (l.getD n 0) (l'.getD n 0) := by
  rw [List.length_zipWith] at hn
  have h1 : n < l.length := lt_of_lt_of_le hn (min_le_left _ _)
  have h2 : n < l'.length := lt_of_lt_of_le hn (min_le_right _ _)
  rw [List.getD_eq_getElem?_getD, List.getElem?_zipWith,
    List.getElem?_eq_getElem h1, List.getElem?_eq_getElem h2,
    List.getD_eq_getElem?_getD, List.getD_eq_getElem?_getD,
    List.getElem?_eq_getElem h1, List.getElem?_eq_getElem h2]
  rfl

theorem zipWith_left_of {f : ℚ → ℚ → ℚ} (hf : ∀ x y, f x y = x) :
    ∀ (l l' : List ℚ), l.length = l'.length → List.zipWith f l l' = l := by
  intro l
  induction l with
  | nil => intro l' _; rfl
  | cons x xs IH =>
    intro l' hl
    cases l' with
    | nil => simp at hl
    | cons y ys =>
      simp only [List.zipWith_cons_cons, hf]
      rw [IH ys (by simpa using hl)]

theorem zipWith3_length (f : ℚ → ℚ → ℚ → ℚ) :
    ∀ (l1 l2 l3 : List ℚ),
      (zipWith3 f l1 l2 l3).length = min l1.length (min l2.length l3.length) := by
  intro l1
  induction l1 with
  | nil => intro l2 l3; simp [zipWith3]
  | cons x xs IH =>
    intro l2 l3
    cases l2 with
    | nil => simp [zipWith3]
    | cons y ys =>
      cases l3 with
      | nil => simp [zipWith3]
      | cons z zs => simp [zipWith3, IH ys zs]; omega

theorem zipWith3_const_left {f : ℚ → ℚ → ℚ → ℚ} {l3 : List ℚ}
    (hz : ∀ v ∈ l3, v = 0) (hf : ∀ x y, f x y 0 = x) :
    ∀ (l1 l2 : List ℚ), l1.length = l2.length → l2.length = l3.length →
      zipWith3 f l1 l2 l3 = l1 := by
  induction l3 with
  | nil =>
    intro l1 l2 h12 h23
    cases l1 <;> cases l2 <;> simp_all [zipWith3]
  | cons z zs IH =>
    intro l1 l2 h12 h23
    cases l1 with
    | nil => cases l2 <;> simp_all
    | cons x xs =>
      cases l2 with
      | nil => simp at h12
      | cons y ys =>
        have hz0 : z = 0 := hz z (by simp)
        simp only [zipWith3, hz0, hf]
        rw [IH (fun v hv => hz v (by simp [hv])) xs ys (by simpa using h12)
          (by simpa using h23)]

theorem zipWith3_const_mid {f : ℚ → ℚ → ℚ → ℚ} {l3 : List ℚ}
    (hz : ∀ v ∈ l3, v = 1) (hf : ∀ x y, f x y 1 = y) :
    ∀ (l1 l2 : List ℚ), l1.length = l2.length → l2.length = l3.length →
      zipWith3 f l1 l2 l3 = l2 := by
  induction l3 with
  | nil =>
    intro l1 l2 h12 h23
    cases l1 <;> cases l2 <;> simp_all [zipWith3]
  | cons z zs IH =>
    intro l1 l2 h12 h23
    cases l1 with
    | nil => cases l2 <;> simp_all
    | cons x xs =>
      cases l2 with
      | nil => simp at h12
      | cons y ys =>
        have hz1 : z = 1 := hz z (by simp)
        simp only [zipWith3, hz1, hf]
        rw [IH (fun v hv => hz v (by simp [hv])) xs ys (by simpa using h12)
          (by simpa using h23)]

theorem clampQ_bounds (x : ℚ) : 0 ≤ clampQ x ∧ clampQ x ≤ 1 := by
  unfold clampQ
  split_ifs with h1 h2
  · norm_num
  · norm_num
  · push_neg at h1 h2
    exact ⟨h1, h2⟩

theorem clampQ_of_inRange {x : ℚ} (h0 : 0 ≤ x) (h1 : x ≤ 1) : clampQ x = x := by
  unfold clampQ
  rw [if_neg (by linarith), if_neg (by linarith)]

theorem map_clampQ_of_inRange {l : List ℚ} (h : ∀ v ∈ l, 0 ≤ v ∧ v ≤ 1) :
    l.map clampQ = l := by
  rw [List.map_congr_left (fun v hv => clampQ_of_inRange (h v hv).1 (h v hv).2)]
  exact List.map_id _

theorem will_clip_of_inRange {a : NDArray} (h : a.inRange) : will_clip a = a := by
  unfold will_clip
  rw [map_clampQ_of_inRange h]

theorem will_clip_bounds (a : NDArray) : (will_clip a).inRange := by
  intro v hv
  simp only [will_clip, List.mem_map] at hv
  obtain ⟨x, _, rfl⟩ := hv
  exact clampQ_bounds x


theorem resize_array_self (a : NDArray) (ha : a.wf) {s0 s1 s2 : ℕ}
    (hsh : a.shape = [s0, s1, s2]) : resize_array a [s0, s1, s2] = .ok a := by
  obtain ⟨sh, d⟩ := a
  simp only [NDArray.wf] at ha
  dsimp at hsh ha
  subst hsh
  unfold resize_array
  simp only [List.zip_cons_cons, List.zip_nil_right, List.map_cons, List.map_nil,
    List.length_cons, List.length_nil]
  rw [if_neg (by norm_num), if_neg (by simp), if_neg (by simp), if_neg (by simp)]
  have hround := map_atIdx_allIdx ⟨[s0, s1, s2], d⟩ (by simpa [NDArray.wf] using ha)
  dsimp only at hround
  congr 1
  congr 1
  conv_rhs => rw [← hround]
  refine List.map_congr_left (fun ix hix => ?_)
  have hv := mem_allIdx_valid hix
  have hlen : ix.length = 3 := by simpa using validIx_length hv
  obtain ⟨i, j, k, rfl⟩ : ∃ i j k, ix = [i, j, k] := by
    match ix, hlen with
    | [i, j, k], _ => exact ⟨i, j, k, rfl⟩
  simp only [validIx, Bool.and_eq_true, decide_eq_true_eq] at hv
  obtain ⟨hi, hj, hk, -⟩ := hv
  rw [if_pos (by simp [List.range_succ, hi, hj, hk])]
  congr 1
  simp [List.range_succ]


theorem will_match_size_self (a b : NDArray) (ha : a.wf) (hb : b.wf)
    (hs : a.shape = b.shape) (h3 : a.shape.length = 3) :
    will_match_size a b = .ok (a, b) := by
  obtain ⟨s0, s1, s2, hsh⟩ : ∃ x y z, a.shape = [x, y, z] := List.length_eq_three.mp h3
  have hsb : b.shape = [s0, s1, s2] := hs ▸ hsh
  have hsize : List.zipWith max a.shape b.shape = [s0, s1, s2] := by
    rw [hsh, hsb]; simp
  simp only [will_match_size, hsize]
  rw [resize_array_self a ha hsh, resize_array_self b hb hsb]
  rfl


theorem will_colorize_eq_len (c : Bool) (a b : NDArray)
    (h : a.shape.length = b.shape.length) : will_colorize c a b = (a, b) := by
  unfold will_colorize
  split_ifs with h1 h2 h3
  · exact absurd h2.1 (by omega)
  · exact absurd h3.1 (by omega)
  · rfl
  · rfl

theorem will_colorize_eq_notail (c : Bool) (a b : NDArray)
    (hA : a.shape.getLast? ≠ some 3) (hB : b.shape.getLast? ≠ some 3) :
    will_colorize c a b = (a, b) := by
  unfold will_colorize
  split_ifs with h1 h2 h3
  · exact absurd h2.2 hB
  · exact absurd h3.2 hA
  · rfl
  · rfl

theorem will_colorize_promote_a (a b : NDArray)
    (hd : a.shape.length + 1 = b.shape.length) (h3 : b.shape.getLast? = some 3) :
    will_colorize true a b = (grayscale_to_rgb a, b) := by
  unfold will_colorize
  rw [if_pos rfl, if_pos ⟨hd, h3⟩]

theorem will_colorize_promote_b (a b : NDArray)
    (hd : b.shape.length + 1 = a.shape.length) (h3 : a.shape.getLast? = some 3) :
    will_colorize true a b = (a, grayscale_to_rgb b) := by
  unfold will_colorize
  rw [if_pos rfl, if_neg (fun hc => by omega), if_pos ⟨hd, h3⟩]

theorem flatIdx_append3 {s ix : List ℕ} (h : ix.length = s.length) (c : ℕ) :
    flatIdx (s ++ [3]) (ix ++ [c]) = flatIdx s ix * 3 + c := by
  unfold flatIdx
  rw [List.zip_append h.symm, List.foldl_append]
  rfl

theorem getD_flatMap3 (l : List ℚ) (n c : ℕ) (hn : n < l.length) (hc : c < 3) :
    (l.flatMap (fun v => [v, v, v])).getD (n * 3 + c) 0 = l.getD n 0 := by
  have hstep := getElem?_flatMap_uniform l (fun v => [v, v, v]) 3
    (fun x _ => rfl) n c hc hn
  have hv : l.get ⟨n, hn⟩ = l.getD n 0 := by
    rw [List.getD_eq_getElem?_getD, List.getElem?_eq_getElem hn]
    rfl
  have hg : l[n]? = some l[n] := List.getElem?_eq_getElem hn
  rw [List.getD_eq_getElem?_getD, hstep, List.getD_eq_getElem?_getD, hg]
  interval_cases c <;> rfl

theorem grayscale_to_rgb_atIdx (a : NDArray) (ha : a.wf) {ix : List ℕ} (c : ℕ)
    (hv : validIx a.shape ix = true) (hc : c < 3) :
    (grayscale_to_rgb a).atIdx (ix ++ [c]) = a.atIdx ix := by
  unfold grayscale_to_rgb NDArray.atIdx
  dsimp only
  rw [flatIdx_append3 (validIx_length hv) c]
  exact getD_flatMap3 a.data _ c (by rw [ha]; exact flatIdx_lt_prod hv) hc

theorem elemwise_ok {f : ℚ → ℚ → ℚ} {a b : NDArray} (hs : a.shape = b.shape) :
    elemwise f a b = .ok ⟨a.shape, List.zipWith f a.data b.data⟩ := by
  unfold elemwise
  rw [if_pos hs]

theorem ok_bind {α β : Type} (x : α) (g : α → Except String β) :
    (Except.ok x >>= g) = g x := rfl

theorem error_bind {α β : Type} (e : String) (g : α → Except String β) :
    ((Except.error e : Except String α) >>= g) = Except.error e := rfl

theorem composedOp_eq_chain (clip : Bool) (f : ℚ → ℚ → ℚ) (a b : NDArray)
    (colorize : Bool) (fade : ℚ) (mask : Option NDArray)
    (ha : a.wf) (hb : b.wf) (hs : a.shape = b.shape) (h3 : a.shape.length = 3) :
    composedOp clip f a b colorize fade mask =
      can_fade a ⟨a.shape, List.zipWith f a.data b.data⟩ fade >>= fun ab1 =>
        can_mask a ab1 mask >>= fun ab2 =>
          .ok (if clip then will_clip ab2 else ab2) := by
  simp only [composedOp, will_match_size_self a b ha hb hs h3, ok_bind,
    will_colorize_eq_len colorize a b (by rw [hs]), elemwise_ok hs]


theorem can_fade_one (a ab : NDArray) : can_fade a ab 1 = .ok ab := by
  unfold can_fade
  rw [if_pos rfl]

theorem can_fade_zero {a ab : NDArray} (h : a.shape = ab.shape)
    (hlen : a.data.length = ab.data.length) : can_fade a ab 0 = .ok a := by
  unfold can_fade
  rw [if_neg (by norm_num), if_pos h,
    zipWith_left_of (fun x y => by ring) a.data ab.data hlen]

theorem can_fade_ok {a ab : NDArray} (fade : ℚ) (h : a.shape = ab.shape)
    (hlen : a.data.length = ab.data.length) :
    ∃ r, can_fade a ab fade = .ok r ∧ r.shape = ab.shape ∧ r.data.length = ab.data.length := by
  unfold can_fade
  by_cases hf : fade = 1
  · rw [if_pos hf]
    exact ⟨ab, rfl, rfl, rfl⟩
  · rw [if_neg hf, if_pos h]
    refine ⟨_, rfl, h, ?_⟩
    simp [List.length_zipWith]
    omega

theorem can_mask_none (a ab : NDArray) : can_mask a ab none = .ok ab := rfl

theorem can_mask_zero {a ab m : NDArray} (h1 : a.shape = ab.shape)
    (h2 : m.shape = ab.shape) (hz : ∀ v ∈ m.data, v = 0)
    (hl1 : a.data.length = ab.data.length) (hl2 : ab.data.length = m.data.length) :
    can_mask a ab (some m) = .ok a := by
  simp only [can_mask]
  rw [if_pos ⟨h1, h2⟩, zipWith3_const_left hz (fun x y => by ring) a.data ab.data hl1 hl2]

theorem can_mask_one {a ab m : NDArray} (h1 : a.shape = ab.shape)
    (h2 : m.shape = ab.shape) (ho : ∀ v ∈ m.data, v = 1)
    (hl1 : a.data.length = ab.data.length) (hl2 : ab.data.length = m.data.length) :
    can_mask a ab (some m) = .ok ab := by
  simp only [can_mask]
  rw [if_pos ⟨h1, h2⟩, zipWith3_const_mid ho (fun x y => by ring) a.data ab.data hl1 hl2,
    h1]

theorem can_mask_ok {a ab : NDArray} (mask : Option NDArray)
    (h : a.shape = ab.shape) (hm : ∀ m, mask = some m → m.shape = ab.shape) :
    ∃ r, can_mask a ab mask = .ok r := by
  cases mask with
  | none => exact ⟨ab, rfl⟩
  | some m =>
    simp only [can_mask]
    rw [if_pos ⟨h, hm m rfl⟩]
    exact ⟨_, rfl⟩

theorem resize_array_err_short {a : NDArray} {size : List ℕ}
    (h : (size.zip a.shape).length < 3) : resize_array a size = .error "IndexError" := by
  unfold resize_array
  rw [if_pos (by simpa using h)]

theorem resize_array_err_ndim {a : NDArray} {size : List ℕ}
    (h3 : ¬ (size.zip a.shape).length < 3)
    (hshr : ∀ p ∈ size.zip a.shape, ¬ p.1 < p.2)
    (hne : ¬ a.shape.length = size.length) :
    resize_array a size = .error "broadcast" := by
  unfold resize_array
  rw [if_neg (by simpa using h3),
    if_neg (fun hc => by
      obtain ⟨p, hp, hlt⟩ := List.any_eq_true.mp hc
      exact hshr p hp (by simpa using hlt)),
    if_pos hne]

theorem zip_zipWith_max_left :
    ∀ {A B : List ℕ} (p : ℕ × ℕ), p ∈ (List.zipWith max A B).zip A → p.2 ≤ p.1 := by
  intro A
  induction A with
  | nil => intro B p hp; simp at hp
  | cons x xs IH =>
    intro B p hp
    cases B with
    | nil => simp at hp
    | cons y ys =>
      simp only [List.zipWith_cons_cons, List.zip_cons_cons, List.mem_cons] at hp
      rcases hp with rfl | hp
      · exact le_max_left x y
      · exact IH p hp

theorem zip_zipWith_max_right :
    ∀ {A B : List ℕ} (p : ℕ × ℕ), p ∈ (List.zipWith max A B).zip B → p.2 ≤ p.1 := by
  intro A
  induction A with
  | nil => intro B p hp; simp at hp
  | cons x xs IH =>
    intro B p hp
    cases B with
    | nil => simp at hp
    | cons y ys =>
      simp only [List.zipWith_cons_cons, List.zip_cons_cons, List.mem_cons] at hp
      rcases hp with rfl | hp
      · exact le_max_right x y
      · exact IH p hp

theorem will_match_size_err {a b : NDArray} (h : a.shape.length ≠ b.shape.length) :
    ∃ e, will_match_size a b = .error e := by
  simp only [will_match_size]
  set size := List.zipWith max a.shape b.shape with hsize
  have hlen : size.length = min a.shape.length b.shape.length := by
    simp [hsize]
  have hshrA : ∀ p ∈ size.zip a.shape, ¬ p.1 < p.2 := fun p hp =>
    not_lt.mpr (zip_zipWith_max_left p hp)
  have hshrB : ∀ p ∈ size.zip b.shape, ¬ p.1 < p.2 := fun p hp =>
    not_lt.mpr (zip_zipWith_max_right p hp)
  by_cases h3 : (size.zip a.shape).length < 3
  · exact ⟨"IndexError", by rw [resize_array_err_short h3, error_bind]⟩
  · by_cases hna : a.shape.length = size.length
    · have hnb : ¬ b.shape.length = size.length := by omega
      cases hra : resize_array a size with
      | error e => exact ⟨e, by rw [error_bind]⟩
      | ok a2 =>
        refine ⟨"broadcast", ?_⟩
        rw [ok_bind]
        have h3b : ¬ (size.zip b.shape).length < 3 := by
          simp only [List.length_zip] at h3 ⊢
          omega
        rw [resize_array_err_ndim h3b hshrB hnb, error_bind]
    · exact ⟨"broadcast", by rw [resize_array_err_ndim h3 hshrA hna, error_bind]⟩

theorem composedOp_err {clip : Bool} {f : ℚ → ℚ → ℚ} {a b : NDArray}
    {colorize : Bool} {fade : ℚ} {mask : Option NDArray}
    (h : a.shape.length ≠ b.shape.length) :
    ∃ e, composedOp clip f a b colorize fade mask = .error e := by
  obtain ⟨e, he⟩ := will_match_size_err h
  exact ⟨e, by simp only [composedOp]; rw [he, error_bind]⟩


/-- The pipeline with the fade stage removed: reference for the statement
that `fade == 1.0` makes `can_fade` a no-op. -/
def composedNoFadeOp (clip : Bool) (f : ℚ → ℚ → ℚ) (a b : NDArray)
    (colorize : Bool) (mask : Option NDArray) : Except String NDArray := do
  let (a1, b1) ← will_match_size a b
  let (a2, b2) := will_colorize colorize a1 b1
  let ab0 ← elemwise f a2 b2
  let ab2 ← can_mask a ab0 mask
  .ok (if clip then will_clip ab2 else ab2)

/-- The pipeline with the mask stage removed: reference for the statement
that an absent mask makes `can_mask` a no-op. -/
def composedNoMaskOp (clip : Bool) (f : ℚ → ℚ → ℚ) (a b : NDArray)
    (colorize : Bool) (fade : ℚ) : Except String NDArray := do
  let (a1, b1) ← will_match_size a b
  let (a2, b2) := will_colorize colorize a1 b1
  let ab0 ← elemwise f a2 b2
  let ab1 ← can_fade a ab0 fade
  .ok (if clip then will_clip ab1 else ab1)

theorem bind_can_fade_one (e : Except String NDArray) (a : NDArray)
    (k : NDArray → Except String NDArray) :
    (e >>= fun ab0 => can_fade a ab0 1 >>= k) = e >>= k := by
  cases e with
  | error e => rw [error_bind, error_bind]
  | ok x => rw [ok_bind, ok_bind, can_fade_one, ok_bind]

theorem bind_can_mask_none (e : Except String NDArray) (a : NDArray)
    (k : NDArray → Except String NDArray) :
    (e >>= fun ab1 => can_mask a ab1 none >>= k) = e >>= k := by
  cases e with
  | error e => rw [error_bind, error_bind]
  | ok x => rw [ok_bind, ok_bind, can_mask_none, ok_bind]

theorem composedOp_fade1 (clip : Bool) (f : ℚ → ℚ → ℚ) (a b : NDArray)
    (colorize : Bool) (mask : Option NDArray) :
    composedOp clip f a b colorize 1 mask = composedNoFadeOp clip f a b colorize mask := by
  simp only [composedOp, composedNoFadeOp]
  cases hws : will_match_size a b with
  | error e => rw [error_bind, error_bind]
  | ok p =>
    obtain ⟨a1, b1⟩ := p
    rw [ok_bind, ok_bind]
    exact bind_can_fade_one
      (elemwise f (will_colorize colorize a1 b1).1 (will_colorize colorize a1 b1).2) a _

theorem composedOp_mask_skip (clip : Bool) (f : ℚ → ℚ → ℚ) (a b : NDArray)
    (colorize : Bool) (fade : ℚ) :
    composedOp clip f a b colorize fade none = composedNoMaskOp clip f a b colorize fade := by
  simp only [composedOp, composedNoMaskOp]
  cases hws : will_match_size a b with
  | error e => rw [error_bind, error_bind]
  | ok p =>
    obtain ⟨a1, b1⟩ := p
    rw [ok_bind, ok_bind]
    cases helem : elemwise f (will_colorize colorize a1 b1).1 (will_colorize colorize a1 b1).2 with
    | error e => rw [error_bind, error_bind]
    | ok ab0 =>
      rw [ok_bind, ok_bind]
      exact bind_can_mask_none (can_fade a ab0 fade) a _

theorem zip_len_eq {f : ℚ → ℚ → ℚ} {a b : NDArray}
    (ha : a.wf) (hb : b.wf) (hs : a.shape = b.shape) :
    a.data.length = (List.zipWith f a.data b.data).length := by
  have hba : b.data.length = a.data.length := by rw [ha, hb, hs]
  simp [List.length_zipWith, hba]

theorem composedOp_ok {clip : Bool} {f : ℚ → ℚ → ℚ} {a b : NDArray}
    {colorize : Bool} {fade : ℚ} {mask : Option NDArray}
    (ha : a.wf) (hb : b.wf) (hs : a.shape = b.shape) (h3 : a.shape.length = 3)
    (hm : ∀ m, mask = some m → m.shape = a.shape) :
    ∃ r, composedOp clip f a b colorize fade mask = .ok r := by
  rw [composedOp_eq_chain clip f a b colorize fade mask ha hb hs h3]
  obtain ⟨r1, hr1, hr1s, hr1l⟩ :=
    @can_fade_ok a ⟨a.shape, List.zipWith f a.data b.data⟩ fade rfl (zip_len_eq ha hb hs)
  rw [hr1, ok_bind]
  obtain ⟨r2, hr2⟩ := can_mask_ok mask (show a.shape = r1.shape from hr1s.symm)
    (fun m hmm => (hm m hmm).trans hr1s.symm)
  rw [hr2, ok_bind]
  exact ⟨_, rfl⟩

theorem composedOp_fade0 {clip : Bool} {f : ℚ → ℚ → ℚ} {a b : NDArray} {colorize : Bool}
    (ha : a.wf) (hb : b.wf) (hs : a.shape = b.shape) (h3 : a.shape.length = 3)
    (hra : a.inRange) :
    composedOp clip f a b colorize 0 none = .ok a := by
  rw [composedOp_eq_chain clip f a b colorize 0 none ha hb hs h3]
  rw [@can_fade_zero a ⟨a.shape, List.zipWith f a.data b.data⟩ rfl (zip_len_eq ha hb hs),
    ok_bind, can_mask_none, ok_bind]
  cases clip with
  | true => rw [if_pos rfl, will_clip_of_inRange hra]
  | false => rfl

theorem composedOp_mask_zero {clip : Bool} {f : ℚ → ℚ → ℚ} {a b m : NDArray}
    {colorize : Bool} {fade : ℚ}
    (ha : a.wf) (hb : b.wf) (hs : a.shape = b.shape) (h3 : a.shape.length = 3)
    (hm : m.shape = a.shape) (hmw : m.wf) (hz : ∀ v ∈ m.data, v = 0)
    (hra : a.inRange) :
    composedOp clip f a b colorize fade (some m) = .ok a := by
  rw [composedOp_eq_chain clip f a b colorize fade (some m) ha hb hs h3]
  obtain ⟨r1, hr1, hr1s, hr1l⟩ :=
    @can_fade_ok a ⟨a.shape, List.zipWith f a.data b.data⟩ fade rfl (zip_len_eq ha hb hs)
  rw [hr1, ok_bind]
  have hml : m.data.length = a.data.length := by rw [hmw, ha, hm]
  have hl1 : a.data.length = r1.data.length := (zip_len_eq ha hb hs).trans hr1l.symm
  rw [@can_mask_zero a r1 m hr1s.symm (hm.trans hr1s.symm) hz hl1
    (hl1.symm.trans hml.symm), ok_bind]
  cases clip with
  | true => rw [if_pos rfl, will_clip_of_inRange hra]
  | false => rfl

theorem composedOp_mask_one {clip : Bool} {f : ℚ → ℚ → ℚ} {a b m : NDArray}
    {colorize : Bool} {fade : ℚ}
    (ha : a.wf) (hb : b.wf) (hs : a.shape = b.shape) (h3 : a.shape.length = 3)
    (hm : m.shape = a.shape) (hmw : m.wf) (ho : ∀ v ∈ m.data, v = 1) :
    composedOp clip f a b colorize fade (some m)
      = composedOp clip f a b colorize fade none := by
  rw [composedOp_eq_chain clip f a b colorize fade (some m) ha hb hs h3,
    composedOp_eq_chain clip f a b colorize fade none ha hb hs h3]
  obtain ⟨r1, hr1, hr1s, hr1l⟩ :=
    @can_fade_ok a ⟨a.shape, List.zipWith f a.data b.data⟩ fade rfl (zip_len_eq ha hb hs)
  rw [hr1, ok_bind, ok_bind]
  have hml : m.data.length = a.data.length := by rw [hmw, ha, hm]
  have hl1 : a.data.length = r1.data.length := (zip_len_eq ha hb hs).trans hr1l.symm
  rw [@can_mask_one a r1 m hr1s.symm (hm.trans hr1s.symm) ho hl1
    (hl1.symm.trans hml.symm), can_mask_none]

theorem composedOp_clip_inRange {f : ℚ → ℚ → ℚ} {a b : NDArray}
    {colorize : Bool} {fade : ℚ} {mask : Option NDArray} {r : NDArray}
    (h : composedOp true f a b colorize fade mask = .ok r) : r.inRange := by
  simp only [composedOp] at h
  cases hws : will_match_size a b with
  | error e => rw [hws, error_bind] at h; cases h
  | ok p =>
    obtain ⟨a1, b1⟩ := p
    rw [hws, ok_bind] at h
    cases helem : elemwise f (will_colorize colorize a1 b1).1
        (will_colorize colorize a1 b1).2 with
    | error e => rw [helem] at h; rw [error_bind] at h; cases h
    | ok ab0 =>
      rw [helem, ok_bind] at h
      cases hfade : can_fade a ab0 fade with
      | error e => rw [hfade, error_bind] at h; cases h
      | ok ab1 =>
        rw [hfade, ok_bind] at h
        cases hmask : can_mask a ab1 mask with
        | error e => rw [hmask, error_bind] at h; cases h
        | ok ab2 =>
          rw [hmask, ok_bind] at h
          cases h
          simpa using will_clip_bounds ab2


theorem resize_array3 (a : NDArray) {s0 s1 s2 : ℕ} (z0 z1 z2 : ℕ)
    (hsh : a.shape = [s0, s1, s2]) (h0 : s0 ≤ z0) (h1 : s1 ≤ z1) (h2 : s2 ≤ z2) :
    ∃ r, resize_array a [z0, z1, z2] = .ok r ∧ r.shape = [z0, z1, z2]
      ∧ r.data.length = z0 * (z1 * z2)
      ∧ ∀ i j k, i < z0 → j < z1 → k < z2 →
        r.atIdx [i, j, k] =
          if ((z0 - s0) / 2 ≤ i ∧ i < (z0 - s0) / 2 + s0)
            ∧ ((z1 - s1) / 2 ≤ j ∧ j < (z1 - s1) / 2 + s1)
            ∧ ((z2 - s2) / 2 ≤ k ∧ k < (z2 - s2) / 2 + s2)
          then a.atIdx [i - (z0 - s0) / 2, j - (z1 - s1) / 2, k - (z2 - s2) / 2]
          else 0 := by
  obtain ⟨sh, d⟩ := a
  dsimp at hsh ⊢
  subst hsh
  unfold resize_array
  simp only [List.zip_cons_cons, List.zip_nil_right, List.map_cons, List.map_nil,
    List.length_cons, List.length_nil]
  rw [if_neg (by norm_num),
    if_neg (by
      simp only [List.any_cons, List.any_nil, Bool.or_eq_true, decide_eq_true_eq,
        Bool.or_false]
      omega),
    if_neg (by simp), if_neg (by simp [List.all_eq_true]; omega)]
  refine ⟨_, rfl, rfl, ?_, ?_⟩
  · simp [length_allIdx]
  · intro i j k hi hj hk
    have hv : validIx [z0, z1, z2] [i, j, k] = true := by
      simp [validIx, hi, hj, hk]
    rw [NDArray.atIdx]
    dsimp only
    rw [getD_map_allIdx _ hv]
    by_cases hw : ((z0 - s0) / 2 ≤ i ∧ i < (z0 - s0) / 2 + s0)
        ∧ ((z1 - s1) / 2 ≤ j ∧ j < (z1 - s1) / 2 + s1)
        ∧ ((z2 - s2) / 2 ≤ k ∧ k < (z2 - s2) / 2 + s2)
    · rw [if_pos (by simp [List.range_succ]; omega), if_pos hw]
      congr 1
    · rw [if_neg (by simp [List.range_succ]; omega), if_neg hw]


/-! Spec-side per-pixel formulas, written from the spec's catalog table
(section 4.7) for the refinement conjuncts of the guard claim. -/

/-- Catalog-table formula for color_burn: where `b != 0`, `1-(1-a)/b`;
where `b = 0`, `0`. -/
def color_burnSpec (x y : ℚ) : ℚ := if y = 0 then 0 else 1 - (1 - x) / y

/-- Catalog-table formula for color_dodge: where `b != 1`, `a/(1-b)`;
where `b = 1`, `1`. -/
def color_dodgeSpec (x y : ℚ) : ℚ := if y = 1 then 1 else x / (1 - y)

/-- Catalog-table formula for vivid_light: where `0 < a <= 0.5`,
`1-(1-b)/(2a)`; where `0.5 < a < 1`, `b/(2(1-a))`; where `a` is 0 or 1,
`0` (avoids division by zero). -/
def vivid_lightSpec (x y : ℚ) : ℚ :=
  if x = 0 ∨ x = 1 then 0
  else if 0 < x ∧ x ≤ 1/2 then 1 - (1 - y) / (2 * x)
  else y / (2 * (1 - x))

theorem color_burnPx_eq_spec (x y : ℚ) : color_burnPx x y = color_burnSpec x y := by
  unfold color_burnPx color_burnSpec
  by_cases h : y = 0 <;> simp [h]

theorem color_dodgePx_eq_spec (x y : ℚ) : color_dodgePx x y = color_dodgeSpec x y := by
  unfold color_dodgePx color_dodgeSpec
  by_cases h : y = 1 <;> simp [h]

theorem vivid_lightPx_eq_spec (x y : ℚ) (h0 : 0 ≤ x) (h1 : x ≤ 1) :
    vivid_lightPx x y = vivid_lightSpec x y := by
  unfold vivid_lightPx vivid_lightSpec
  rcases eq_or_lt_of_le h0 with h0' | h0'
  · rw [← h0']
    norm_num
  · rcases eq_or_lt_of_le h1 with h1' | h1'
    · rw [h1']
      norm_num
    · by_cases hx : x ≤ 1/2
      · rw [if_pos ⟨hx, ne_of_gt h0'⟩, if_neg (by push_neg; exact ⟨ne_of_gt h0', ne_of_lt h1'⟩),
          if_pos ⟨h0', hx⟩]
      · rw [if_neg (fun hc => hx hc.1), if_pos ⟨lt_of_not_le hx, ne_of_lt h1'⟩,
          if_neg (by push_neg; exact ⟨ne_of_gt h0', ne_of_lt h1'⟩),
          if_neg (fun hc => hx hc.2)]

theorem getD_mem {l : List ℚ} {n : ℕ} (h : n < l.length) : l.getD n 0 ∈ l := by
  rw [List.getD_eq_getElem?_getD, List.getElem?_eq_getElem h]
  exact List.getElem_mem h


instance (a : NDArray) : Decidable a.wf :=
  inferInstanceAs (Decidable (a.data.length = a.shape.prod))

instance (a : NDArray) : Decidable a.inRange :=
  inferInstanceAs (Decidable (∀ v ∈ a.data, 0 ≤ v ∧ v ≤ 1))

/-! Claim C5. -/

/-- C5 (counterexample): the claim quantifies over every pair of arrays
with the same number of axes, but on two 2-axis arrays the size reconciler
raises an IndexError (`pad[X]` with `X = 2` on a two-element pad list)
instead of returning the padded pair. -/
theorem c5_counterexample :
    ((⟨[1, 2], [0, 0]⟩ : NDArray).shape.length = (⟨[2, 1], [0, 0]⟩ : NDArray).shape.length)
      ∧ will_match_size ⟨[1, 2], [0, 0]⟩ ⟨[2, 1], [0, 0]⟩ = .error "IndexError" :=
  ⟨rfl, rfl⟩

/-- C5 (amended to arrays with exactly three axes): for 3-axis inputs the
size reconciler returns two arrays shaped as the per-axis maximum of the
two input shapes, each input placed centered at offset
`(target - original) / 2` per axis inside a zero-filled array, values
copied without scaling. -/
theorem c5_amended (a b : NDArray) {s0 s1 s2 t0 t1 t2 : ℕ}
    (hsa : a.shape = [s0, s1, s2]) (hsb : b.shape = [t0, t1, t2]) :
    ∃ a2 b2, will_match_size a b = .ok (a2, b2)
      ∧ a2.shape = [max s0 t0, max s1 t1, max s2 t2]
      ∧ b2.shape = [max s0 t0, max s1 t1, max s2 t2]
      ∧ a2.wf ∧ b2.wf
      ∧ (∀ i j k, i < max s0 t0 → j < max s1 t1 → k < max s2 t2 →
          a2.atIdx [i, j, k] =
            if ((max s0 t0 - s0) / 2 ≤ i ∧ i < (max s0 t0 - s0) / 2 + s0)
              ∧ ((max s1 t1 - s1) / 2 ≤ j ∧ j < (max s1 t1 - s1) / 2 + s1)
              ∧ ((max s2 t2 - s2) / 2 ≤ k ∧ k < (max s2 t2 - s2) / 2 + s2)
            then a.atIdx [i - (max s0 t0 - s0) / 2, j - (max s1 t1 - s1) / 2,
              k - (max s2 t2 - s2) / 2]
            else 0)
      ∧ (∀ i j k, i < max s0 t0 → j < max s1 t1 → k < max s2 t2 →
          b2.atIdx [i, j, k] =
            if ((max s0 t0 - t0) / 2 ≤ i ∧ i < (max s0 t0 - t0) / 2 + t0)
              ∧ ((max s1 t1 - t1) / 2 ≤ j ∧ j < (max s1 t1 - t1) / 2 + t1)
              ∧ ((max s2 t2 - t2) / 2 ≤ k ∧ k < (max s2 t2 - t2) / 2 + t2)
            then b.atIdx [i - (max s0 t0 - t0) / 2, j - (max s1 t1 - t1) / 2,
              k - (max s2 t2 - t2) / 2]
            else 0) := by
  obtain ⟨a2, hra, hsa2, hla, hva⟩ := resize_array3 a (max s0 t0) (max s1 t1) (max s2 t2)
    hsa (le_max_left _ _) (le_max_left _ _) (le_max_left _ _)
  obtain ⟨b2, hrb, hsb2, hlb, hvb⟩ := resize_array3 b (max s0 t0) (max s1 t1) (max s2 t2)
    hsb (le_max_right _ _) (le_max_right _ _) (le_max_right _ _)
  refine ⟨a2, b2, ?_, hsa2, hsb2, ?_, ?_, hva, hvb⟩
  · simp only [will_match_size]
    have hsize : List.zipWith max a.shape b.shape
        = [max s0 t0, max s1 t1, max s2 t2] := by
      rw [hsa, hsb]
      rfl
    rw [hsize, hra, ok_bind, hrb, ok_bind]
  · rw [NDArray.wf, hsa2, hla]
    simp
  · rw [NDArray.wf, hsb2, hlb]
    simp

/-- C5 (witness): the amended theorem applied to a 1x1x1 array and a
1x3x3 array of zeros. -/
theorem c5_witness :
    (⟨[1, 1, 1], [5]⟩ : NDArray).shape = [1, 1, 1]
      ∧ (⟨[1, 3, 3], [0, 0, 0, 0, 0, 0, 0, 0, 0]⟩ : NDArray).shape = [1, 3, 3]
      ∧ ∃ a2 b2, will_match_size ⟨[1, 1, 1], [5]⟩
          ⟨[1, 3, 3], [0, 0, 0, 0, 0, 0, 0, 0, 0]⟩ = .ok (a2, b2)
        ∧ a2.shape = [max 1 1, max 1 3, max 1 3]
        ∧ b2.shape = [max 1 1, max 1 3, max 1 3]
        ∧ a2.wf ∧ b2.wf
        ∧ (∀ i j k, i < max 1 1 → j < max 1 3 → k < max 1 3 →
            a2.atIdx [i, j, k] =
              if ((max 1 1 - 1) / 2 ≤ i ∧ i < (max 1 1 - 1) / 2 + 1)
                ∧ ((max 1 3 - 1) / 2 ≤ j ∧ j < (max 1 3 - 1) / 2 + 1)
                ∧ ((max 1 3 - 1) / 2 ≤ k ∧ k < (max 1 3 - 1) / 2 + 1)
              then (⟨[1, 1, 1], [5]⟩ : NDArray).atIdx [i - (max 1 1 - 1) / 2,
                j - (max 1 3 - 1) / 2, k - (max 1 3 - 1) / 2]
              else 0)
        ∧ (∀ i j k, i < max 1 1 → j < max 1 3 → k < max 1 3 →
            b2.atIdx [i, j, k] =
              if ((max 1 1 - 1) / 2 ≤ i ∧ i < (max 1 1 - 1) / 2 + 1)
                ∧ ((max 1 3 - 3) / 2 ≤ j ∧ j < (max 1 3 - 3) / 2 + 3)
                ∧ ((max 1 3 - 3) / 2 ≤ k ∧ k < (max 1 3 - 3) / 2 + 3)
              then (⟨[1, 3, 3], [0, 0, 0, 0, 0, 0, 0, 0, 0]⟩ : NDArray).atIdx
                [i - (max 1 1 - 1) / 2, j - (max 1 3 - 3) / 2, k - (max 1 3 - 3) / 2]
              else 0) :=
  ⟨rfl, rfl, c5_amended ⟨[1, 1, 1], [5]⟩ ⟨[1, 3, 3], [0, 0, 0, 0, 0, 0, 0, 0, 0]⟩ rfl rfl⟩

/-! Claim C6. -/

/-- C6 (counterexample): the claim quantifies over equal-shape arrays of
any number of axes, but on an equal-shape pair of 2-axis arrays the size
reconciler raises an IndexError instead of being a no-op. -/
theorem c6_counterexample :
    ((⟨[2, 2], [1, 2, 3, 4]⟩ : NDArray).shape = (⟨[2, 2], [1, 2, 3, 4]⟩ : NDArray).shape)
      ∧ will_match_size ⟨[2, 2], [1, 2, 3, 4]⟩ ⟨[2, 2], [1, 2, 3, 4]⟩
        = .error "IndexError" :=
  ⟨rfl, rfl⟩

/-- C6 (amended to arrays with exactly three axes): on two well-formed
equal-shape 3-axis arrays the size reconciler is a no-op, returning both
arrays unchanged and raising no error. -/
theorem c6_amended (a b : NDArray) (ha : a.wf) (hb : b.wf)
    (hs : a.shape = b.shape) (h3 : a.shape.length = 3) :
    will_match_size a b = .ok (a, b) :=
  will_match_size_self a b ha hb hs h3

/-- C6 (witness): the amended theorem applied to two concrete 1x2x2
arrays. -/
theorem c6_witness :
    (⟨[1, 2, 2], [1, 2, 3, 4]⟩ : NDArray).wf
      ∧ (⟨[1, 2, 2], [5, 6, 7, 8]⟩ : NDArray).wf
      ∧ will_match_size ⟨[1, 2, 2], [1, 2, 3, 4]⟩ ⟨[1, 2, 2], [5, 6, 7, 8]⟩
        = .ok (⟨[1, 2, 2], [1, 2, 3, 4]⟩, ⟨[1, 2, 2], [5, 6, 7, 8]⟩) :=
  ⟨by decide, by decide,
    c6_amended ⟨[1, 2, 2], [1, 2, 3, 4]⟩ ⟨[1, 2, 2], [5, 6, 7, 8]⟩
      (by decide) (by decide) rfl rfl⟩

/-! Claim C9. -/

/-- C9: when the two arrays' axis counts differ by exactly one and the
array with more axes has a final axis of extent 3, `will_colorize`
(enabled by default, disabled by the colorize flag) replaces the array
with fewer axes by one with an added final axis of extent 3, each of the
three slices a copy of the original value at that position; when the axis
counts already match, or neither array has a final axis of extent 3, both
arrays pass through unchanged. -/
theorem c9_channel_promotion (a b : NDArray) (ha : a.wf) (hb : b.wf) :
    (a.shape.length + 1 = b.shape.length → b.shape.getLast? = some 3 →
      will_colorize true a b = (grayscale_to_rgb a, b)
        ∧ (grayscale_to_rgb a).shape = a.shape ++ [3]
        ∧ ∀ ix c, validIx a.shape ix = true → c < 3 →
            (grayscale_to_rgb a).atIdx (ix ++ [c]) = a.atIdx ix)
    ∧ (b.shape.length + 1 = a.shape.length → a.shape.getLast? = some 3 →
      will_colorize true a b = (a, grayscale_to_rgb b)
        ∧ (grayscale_to_rgb b).shape = b.shape ++ [3]
        ∧ ∀ ix c, validIx b.shape ix = true → c < 3 →
            (grayscale_to_rgb b).atIdx (ix ++ [c]) = b.atIdx ix)
    ∧ (∀ colorize, a.shape.length = b.shape.length →
        will_colorize colorize a b = (a, b))
    ∧ (∀ colorize, a.shape.getLast? ≠ some 3 → b.shape.getLast? ≠ some 3 →
        will_colorize colorize a b = (a, b))
    ∧ will_colorize false a b = (a, b) :=
  ⟨fun hd h3 => ⟨will_colorize_promote_a a b hd h3, rfl,
      fun _ c hv hc => grayscale_to_rgb_atIdx a ha c hv hc⟩,
    fun hd h3 => ⟨will_colorize_promote_b a b hd h3, rfl,
      fun _ c hv hc => grayscale_to_rgb_atIdx b hb c hv hc⟩,
    fun colorize h => will_colorize_eq_len colorize a b h,
    fun colorize hA hB => will_colorize_eq_notail colorize a b hA hB,
    rfl⟩

/-- C9 (witness): promotion of a 1-axis grayscale array next to a 2x3
array, with the promoted values checked concretely. -/
theorem c9_witness :
    (⟨[2], [5, 7]⟩ : NDArray).wf ∧ (⟨[2, 3], [0, 0, 0, 0, 0, 0]⟩ : NDArray).wf
      ∧ will_colorize true ⟨[2], [5, 7]⟩ ⟨[2, 3], [0, 0, 0, 0, 0, 0]⟩
          = (⟨[2, 3], [5, 5, 5, 7, 7, 7]⟩, ⟨[2, 3], [0, 0, 0, 0, 0, 0]⟩)
      ∧ (grayscale_to_rgb ⟨[2], [5, 7]⟩).atIdx [1, 2] = (⟨[2], [5, 7]⟩ : NDArray).atIdx [1] :=
  ⟨by decide, by decide,
    ((c9_channel_promotion ⟨[2], [5, 7]⟩ ⟨[2, 3], [0, 0, 0, 0, 0, 0]⟩
      (by decide) (by decide)).1 rfl rfl).1,
    (((c9_channel_promotion ⟨[2], [5, 7]⟩ ⟨[2, 3], [0, 0, 0, 0, 0, 0]⟩
      (by decide) (by decide)).1 rfl rfl).2.2 [1] 2 (by decide) (by decide))⟩


theorem darkerPx_comm (x y : ℚ) : darkerPx x y = darkerPx y x := by
  unfold darkerPx
  rcases lt_trichotomy x y with h | h | h
  · rw [if_neg (not_lt.mpr h.le), if_pos h]
  · rw [h]
  · rw [if_pos h, if_neg (not_lt.mpr h.le)]

theorem lighterPx_comm (x y : ℚ) : lighterPx x y = lighterPx y x := by
  unfold lighterPx
  rcases lt_trichotomy x y with h | h | h
  · rw [if_pos h, if_neg (not_lt.mpr h.le)]
  · rw [h]
  · rw [if_neg (not_lt.mpr h.le), if_pos h]

/-! Claim C1. -/

/-- C1 (counterexample): a 2-axis base with a 3-axis blend whose final
axis has extent 3 is exactly the pair the claim says channel promotion
reconciles without error, yet the composed operation raises: the size
stage runs before the colorize stage and its `pad[X]` lookup fails on the
two-element zipped pad list. -/
theorem c1_counterexample :
    (⟨[1, 1], [1]⟩ : NDArray).shape.length + 1
        = (⟨[1, 1, 3], [0, 0, 0]⟩ : NDArray).shape.length
      ∧ (⟨[1, 1, 3], [0, 0, 0]⟩ : NDArray).shape.getLast? = some 3
      ∧ composedOp true darkerPx ⟨[1, 1], [1]⟩ ⟨[1, 1, 3], [0, 0, 0]⟩ true 1 none
        = .error "IndexError" :=
  ⟨rfl, rfl, rfl⟩

/-- C1 (amended): a composed blend raises whenever the two axis counts
differ at all — including pairs the channel promoter could reconcile,
because size reconciliation runs first and fails on any axis-count
mismatch — while equal-shape well-formed 3-axis inputs with no mask or a
mask of the matching shape never raise. -/
theorem c1_amended :
    (∀ (clip : Bool) (f : ℚ → ℚ → ℚ) (a b : NDArray) (colorize : Bool) (fade : ℚ)
        (mask : Option NDArray), a.shape.length ≠ b.shape.length →
        ∃ e, composedOp clip f a b colorize fade mask = .error e)
      ∧ (∀ (clip : Bool) (f : ℚ → ℚ → ℚ) (a b : NDArray) (colorize : Bool) (fade : ℚ)
          (mask : Option NDArray), a.wf → b.wf → a.shape = b.shape →
          a.shape.length = 3 → (∀ m, mask = some m → m.shape = a.shape) →
          ∃ r, composedOp clip f a b colorize fade mask = .ok r) :=
  ⟨fun _ _ _ _ _ _ _ h => composedOp_err h,
    fun _ _ _ _ _ _ _ ha hb hs h3 hm => composedOp_ok ha hb hs h3 hm⟩

/-- C1 (witness): a 1-axis / 2-axis pair errors, and an equal-shape
3-axis pair with fade and a matching mask succeeds. -/
theorem c1_witness :
    (∃ e, composedOp true darkerPx ⟨[2], [0, 0]⟩ ⟨[2, 2], [0, 0, 0, 0]⟩ true 1 none
        = .error e)
      ∧ (∃ r, composedOp true color_burnPx ⟨[1, 1, 1], [1/2]⟩ ⟨[1, 1, 1], [1/3]⟩
          true (1/2) (some ⟨[1, 1, 1], [1]⟩) = .ok r) :=
  ⟨c1_amended.1 true darkerPx ⟨[2], [0, 0]⟩ ⟨[2, 2], [0, 0, 0, 0]⟩ true 1 none (by decide),
    c1_amended.2 true color_burnPx ⟨[1, 1, 1], [1/2]⟩ ⟨[1, 1, 1], [1/3]⟩
      true (1/2) (some ⟨[1, 1, 1], [1]⟩) (by decide) (by decide) rfl rfl
      (fun m hm => by cases hm; rfl)⟩

/-! Claim C3. -/

/-- C3 (counterexample): `darker(a,b)` computes the pointwise minimum and
`lighter(b,a)` the pointwise maximum, so they differ on any pair with a
strictly smaller base value. -/
theorem c3_counterexample :
    darker ⟨[1, 1, 1], [0]⟩ ⟨[1, 1, 1], [1]⟩ = .ok ⟨[1, 1, 1], [0]⟩
      ∧ lighter ⟨[1, 1, 1], [1]⟩ ⟨[1, 1, 1], [0]⟩ = .ok ⟨[1, 1, 1], [1]⟩
      ∧ (⟨[1, 1, 1], [0]⟩ : NDArray) ≠ ⟨[1, 1, 1], [1]⟩ :=
  ⟨rfl, rfl, by decide⟩

/-- C3 (amended): `darker` and `lighter` are each commutative in their two
array arguments — `darker(a,b) = darker(b,a)` and
`lighter(a,b) = lighter(b,a)` — for all compatible (equal-shape,
well-formed, 3-axis) arrays. -/
theorem c3_amended (a b : NDArray) (ha : a.wf) (hb : b.wf)
    (hs : a.shape = b.shape) (h3 : a.shape.length = 3) :
    darker a b = darker b a ∧ lighter a b = lighter b a := by
  have h3b : b.shape.length = 3 := by rw [← hs]; exact h3
  constructor
  · rw [darker, darker,
      composedOp_eq_chain true darkerPx a b true 1 none ha hb hs h3,
      composedOp_eq_chain true darkerPx b a true 1 none hb ha hs.symm h3b,
      can_fade_one, ok_bind, can_mask_none, ok_bind,
      can_fade_one, ok_bind, can_mask_none, ok_bind,
      List.zipWith_comm_of_comm darkerPx darkerPx_comm a.data b.data, hs]
  · rw [lighter, lighter,
      composedOp_eq_chain true lighterPx a b true 1 none ha hb hs h3,
      composedOp_eq_chain true lighterPx b a true 1 none hb ha hs.symm h3b,
      can_fade_one, ok_bind, can_mask_none, ok_bind,
      can_fade_one, ok_bind, can_mask_none, ok_bind,
      List.zipWith_comm_of_comm lighterPx lighterPx_comm a.data b.data, hs]

/-- C3 (witness): commutativity of `darker` and `lighter` at a concrete
pair of 1x1x2 arrays. -/
theorem c3_witness :
    (⟨[1, 1, 2], [0, 1]⟩ : NDArray).wf ∧ (⟨[1, 1, 2], [1, 0]⟩ : NDArray).wf
      ∧ darker ⟨[1, 1, 2], [0, 1]⟩ ⟨[1, 1, 2], [1, 0]⟩
          = darker ⟨[1, 1, 2], [1, 0]⟩ ⟨[1, 1, 2], [0, 1]⟩
      ∧ lighter ⟨[1, 1, 2], [0, 1]⟩ ⟨[1, 1, 2], [1, 0]⟩
          = lighter ⟨[1, 1, 2], [1, 0]⟩ ⟨[1, 1, 2], [0, 1]⟩ :=
  ⟨by decide, by decide,
    (c3_amended ⟨[1, 1, 2], [0, 1]⟩ ⟨[1, 1, 2], [1, 0]⟩ (by decide) (by decide) rfl rfl).1,
    (c3_amended ⟨[1, 1, 2], [0, 1]⟩ ⟨[1, 1, 2], [1, 0]⟩ (by decide) (by decide) rfl rfl).2⟩

/-! Claim C4. -/

/-- C4 (counterexample): composed `darker` carries `@will_clip`, so on a
pair holding the out-of-range value 2 it returns the clipped value 1, not
the unclipped 2 that the claim promises. -/
theorem c4_counterexample :
    darker ⟨[1, 1, 1], [2]⟩ ⟨[1, 1, 1], [2]⟩ = .ok ⟨[1, 1, 1], [1]⟩
      ∧ (⟨[1, 1, 1], [1]⟩ : NDArray) ≠ ⟨[1, 1, 1], [2]⟩ :=
  ⟨rfl, by decide⟩

/-- C4 (amended): of the four operations only `replace` skips the range
clipper; composed `darker`, `lighter` and `multiply` all pass their result
through it and so always return values in [0,1], while `replace` returns
out-of-range values unclipped. -/
theorem c4_amended :
    (∀ (a b : NDArray) (colorize : Bool) (fade : ℚ) (mask : Option NDArray) r,
        darker a b colorize fade mask = .ok r → r.inRange)
      ∧ (∀ (a b : NDArray) (colorize : Bool) (fade : ℚ) (mask : Option NDArray) r,
          lighter a b colorize fade mask = .ok r → r.inRange)
      ∧ (∀ (a b : NDArray) (colorize : Bool) (fade : ℚ) (mask : Option NDArray) r,
          multiply a b colorize fade mask = .ok r → r.inRange)
      ∧ replace ⟨[1, 1, 1], [0]⟩ ⟨[1, 1, 1], [5]⟩ = .ok ⟨[1, 1, 1], [5]⟩
      ∧ ¬ (⟨[1, 1, 1], [5]⟩ : NDArray).inRange :=
  ⟨fun _ _ _ _ _ _ h => composedOp_clip_inRange h,
    fun _ _ _ _ _ _ h => composedOp_clip_inRange h,
    fun _ _ _ _ _ _ h => composedOp_clip_inRange h,
    rfl, by decide⟩

/-- C4 (witness): a concrete clipped `darker` run whose result the theorem
certifies to lie in [0,1]. -/
theorem c4_witness :
    darker ⟨[1, 1, 1], [2]⟩ ⟨[1, 1, 1], [0]⟩ true 1 none = .ok ⟨[1, 1, 1], [0]⟩
      ∧ (⟨[1, 1, 1], [0]⟩ : NDArray).inRange :=
  ⟨rfl, c4_amended.1 ⟨[1, 1, 1], [2]⟩ ⟨[1, 1, 1], [0]⟩ true 1 none ⟨[1, 1, 1], [0]⟩ rfl⟩


/-! Claim C7. -/

/-- C7 (counterexample): on an equal-shape pair of 2-axis in-range arrays
the composed operation with fade 0 raises the size-stage IndexError
instead of returning the base array. -/
theorem c7_counterexample :
    composedOp true darkerPx ⟨[1, 1], [1/2]⟩ ⟨[1, 1], [1/2]⟩ true 0 none
        = .error "IndexError"
      ∧ (Except.error "IndexError" : Except String NDArray) ≠ .ok ⟨[1, 1], [1/2]⟩ :=
  ⟨rfl, by decide⟩

/-- C7 (amended): for every per-pixel algorithm on well-formed equal-shape
3-axis inputs whose base values lie in [0,1], fade 0 returns the base
array unchanged; and for all inputs whatsoever, fade 1 equals the pipeline
with the fade stage skipped. -/
theorem c7_amended :
    (∀ (clip : Bool) (f : ℚ → ℚ → ℚ) (a b : NDArray) (colorize : Bool),
        a.wf → b.wf → a.shape = b.shape → a.shape.length = 3 → a.inRange →
        composedOp clip f a b colorize 0 none = .ok a)
      ∧ ∀ (clip : Bool) (f : ℚ → ℚ → ℚ) (a b : NDArray) (colorize : Bool)
          (mask : Option NDArray),
          composedOp clip f a b colorize 1 mask
            = composedNoFadeOp clip f a b colorize mask :=
  ⟨fun _ _ _ _ _ ha hb hs h3 hra => composedOp_fade0 ha hb hs h3 hra,
    fun clip f a b colorize mask => composedOp_fade1 clip f a b colorize mask⟩

/-- C7 (witness): fade 0 reproduces a concrete 1x1x1 base and fade 1
matches the fade-free pipeline there. -/
theorem c7_witness :
    (⟨[1, 1, 1], [1]⟩ : NDArray).wf ∧ (⟨[1, 1, 1], [1]⟩ : NDArray).inRange
      ∧ composedOp true multiplyPx ⟨[1, 1, 1], [1]⟩ ⟨[1, 1, 1], [0]⟩ true 0 none
          = .ok ⟨[1, 1, 1], [1]⟩
      ∧ composedOp true multiplyPx ⟨[1, 1, 1], [1]⟩ ⟨[1, 1, 1], [0]⟩ true 1 none
          = composedNoFadeOp true multiplyPx ⟨[1, 1, 1], [1]⟩ ⟨[1, 1, 1], [0]⟩
              true none :=
  ⟨by decide, by decide,
    c7_amended.1 true multiplyPx ⟨[1, 1, 1], [1]⟩ ⟨[1, 1, 1], [0]⟩ true
      (by decide) (by decide) rfl rfl (by decide),
    c7_amended.2 true multiplyPx ⟨[1, 1, 1], [1]⟩ ⟨[1, 1, 1], [0]⟩ true none⟩

/-! Claim C8. -/

/-- C8 (counterexample): with an all-zeros mask and the out-of-range base
value 2, the composed `darker` returns the clipped value 1 rather than the
base array: the clip stage runs after the mask mix. -/
theorem c8_counterexample :
    composedOp true darkerPx ⟨[1, 1, 1], [2]⟩ ⟨[1, 1, 1], [0]⟩ true 1
        (some ⟨[1, 1, 1], [0]⟩) = .ok ⟨[1, 1, 1], [1]⟩
      ∧ (⟨[1, 1, 1], [1]⟩ : NDArray) ≠ ⟨[1, 1, 1], [2]⟩ := by
  refine ⟨?_, by decide⟩
  rw [composedOp_eq_chain true darkerPx ⟨[1, 1, 1], [2]⟩ ⟨[1, 1, 1], [0]⟩ true 1
    (some ⟨[1, 1, 1], [0]⟩) (by decide) (by decide) rfl rfl]
  rw [can_fade_one, ok_bind]
  norm_num [can_mask, zipWith3, will_clip, clampQ, darkerPx, ok_bind]

/-- C8 (amended): for every per-pixel algorithm on well-formed equal-shape
3-axis inputs and a well-formed mask of the same shape: an all-zeros mask
returns the base array when its values lie in [0,1] (clipping still runs),
an all-ones mask returns exactly the unmasked result, and an absent mask
equals the pipeline with the mask stage skipped. -/
theorem c8_amended :
    (∀ (clip : Bool) (f : ℚ → ℚ → ℚ) (a b m : NDArray) (colorize : Bool) (fade : ℚ),
        a.wf → b.wf → a.shape = b.shape → a.shape.length = 3 →
        m.shape = a.shape → m.wf → (∀ v ∈ m.data, v = 0) → a.inRange →
        composedOp clip f a b colorize fade (some m) = .ok a)
      ∧ (∀ (clip : Bool) (f : ℚ → ℚ → ℚ) (a b m : NDArray) (colorize : Bool) (fade : ℚ),
          a.wf → b.wf → a.shape = b.shape → a.shape.length = 3 →
          m.shape = a.shape → m.wf → (∀ v ∈ m.data, v = 1) →
          composedOp clip f a b colorize fade (some m)
            = composedOp clip f a b colorize fade none)
      ∧ ∀ (clip : Bool) (f : ℚ → ℚ → ℚ) (a b : NDArray) (colorize : Bool) (fade : ℚ),
          composedOp clip f a b colorize fade none
            = composedNoMaskOp clip f a b colorize fade :=
  ⟨fun _ _ _ _ _ _ _ ha hb hs h3 hm hmw hz hra =>
      composedOp_mask_zero ha hb hs h3 hm hmw hz hra,
    fun _ _ _ _ _ _ _ ha hb hs h3 hm hmw ho =>
      composedOp_mask_one ha hb hs h3 hm hmw ho,
    fun clip f a b colorize fade => composedOp_mask_skip clip f a b colorize fade⟩

/-- C8 (witness): the three mask behaviors at a concrete 1x1x1 triple. -/
theorem c8_witness :
    (⟨[1, 1, 1], [1]⟩ : NDArray).wf ∧ (⟨[1, 1, 1], [1]⟩ : NDArray).inRange
      ∧ (⟨[1, 1, 1], [0]⟩ : NDArray).wf
      ∧ composedOp true multiplyPx ⟨[1, 1, 1], [1]⟩ ⟨[1, 1, 1], [0]⟩ true 1
          (some ⟨[1, 1, 1], [0]⟩) = .ok ⟨[1, 1, 1], [1]⟩
      ∧ composedOp true multiplyPx ⟨[1, 1, 1], [1]⟩ ⟨[1, 1, 1], [0]⟩ true 1
          (some ⟨[1, 1, 1], [1]⟩)
        = composedOp true multiplyPx ⟨[1, 1, 1], [1]⟩ ⟨[1, 1, 1], [0]⟩ true 1 none
      ∧ composedOp true multiplyPx ⟨[1, 1, 1], [1]⟩ ⟨[1, 1, 1], [0]⟩ true 1 none
        = composedNoMaskOp true multiplyPx ⟨[1, 1, 1], [1]⟩ ⟨[1, 1, 1], [0]⟩ true 1 :=
  ⟨by decide, by decide, by decide,
    c8_amended.1 true multiplyPx ⟨[1, 1, 1], [1]⟩ ⟨[1, 1, 1], [0]⟩ ⟨[1, 1, 1], [0]⟩
      true 1 (by decide) (by decide) rfl rfl rfl (by decide) (by decide) (by decide),
    c8_amended.2.1 true multiplyPx ⟨[1, 1, 1], [1]⟩ ⟨[1, 1, 1], [0]⟩ ⟨[1, 1, 1], [1]⟩
      true 1 (by decide) (by decide) rfl rfl rfl (by decide) (by decide),
    c8_amended.2.2 true multiplyPx ⟨[1, 1, 1], [1]⟩ ⟨[1, 1, 1], [0]⟩ true 1⟩

/-! Claim C2. -/

/-- C2: on equal-shape inputs with values in [0,1] the guarded algorithms
never hit a division by zero: `color_burn` is exactly 0 wherever `b = 0`,
`color_dodge` is exactly 1 wherever `b = 1`, `vivid_light` is exactly 0
wherever `a` is 0 or 1, and every position follows the documented
catalog-table formula (spec-side definitions). -/
theorem c2_guards (a b : NDArray) (hs : a.shape = b.shape)
    (hra : a.inRange) (_hrb : b.inRange) :
    ∃ cb cd vl,
      elemwise color_burnPx a b = .ok cb
      ∧ elemwise color_dodgePx a b = .ok cd
      ∧ elemwise vivid_lightPx a b = .ok vl
      ∧ ∀ n, n < cb.data.length →
          ((b.data.getD n 0 = 0 → cb.data.getD n 0 = 0)
          ∧ (b.data.getD n 0 = 1 → cd.data.getD n 0 = 1)
          ∧ ((a.data.getD n 0 = 0 ∨ a.data.getD n 0 = 1) → vl.data.getD n 0 = 0)
          ∧ cb.data.getD n 0 = color_burnSpec (a.data.getD n 0) (b.data.getD n 0)
          ∧ cd.data.getD n 0 = color_dodgeSpec (a.data.getD n 0) (b.data.getD n 0)
          ∧ vl.data.getD n 0 = vivid_lightSpec (a.data.getD n 0) (b.data.getD n 0)) := by
  refine ⟨⟨a.shape, List.zipWith color_burnPx a.data b.data⟩,
    ⟨a.shape, List.zipWith color_dodgePx a.data b.data⟩,
    ⟨a.shape, List.zipWith vivid_lightPx a.data b.data⟩,
    elemwise_ok hs, elemwise_ok hs, elemwise_ok hs, ?_⟩
  intro n hn
  dsimp only at hn ⊢
  have hn2 : n < (List.zipWith color_dodgePx a.data b.data).length := by
    simpa [List.length_zipWith] using hn
  have hn3 : n < (List.zipWith vivid_lightPx a.data b.data).length := by
    simpa [List.length_zipWith] using hn
  have hna : n < a.data.length := by
    rw [List.length_zipWith] at hn
    exact lt_of_lt_of_le hn (min_le_left _ _)
  rw [getD_zipWith hn, getD_zipWith hn2, getD_zipWith hn3]
  have hxr := hra (a.data.getD n 0) (getD_mem hna)
  refine ⟨fun h0 => ?_, fun h1 => ?_, fun hv => ?_,
    color_burnPx_eq_spec _ _, color_dodgePx_eq_spec _ _,
    vivid_lightPx_eq_spec _ _ hxr.1 hxr.2⟩
  · rw [h0]
    unfold color_burnPx
    norm_num
  · rw [h1]
    unfold color_dodgePx
    norm_num
  · rcases hv with h | h <;> rw [h] <;> unfold vivid_lightPx <;> norm_num

/-- C2 (witness): the guard theorem applied to concrete 1x1x2 arrays
hitting every guarded branch. -/
theorem c2_witness :
    ((⟨[1, 1, 2], [0, 1]⟩ : NDArray).shape = (⟨[1, 1, 2], [1, 0]⟩ : NDArray).shape)
      ∧ (⟨[1, 1, 2], [0, 1]⟩ : NDArray).inRange
      ∧ (⟨[1, 1, 2], [1, 0]⟩ : NDArray).inRange
      ∧ ∃ cb cd vl,
          elemwise color_burnPx ⟨[1, 1, 2], [0, 1]⟩ ⟨[1, 1, 2], [1, 0]⟩ = .ok cb
          ∧ elemwise color_dodgePx ⟨[1, 1, 2], [0, 1]⟩ ⟨[1, 1, 2], [1, 0]⟩ = .ok cd
          ∧ elemwise vivid_lightPx ⟨[1, 1, 2], [0, 1]⟩ ⟨[1, 1, 2], [1, 0]⟩ = .ok vl
          ∧ ∀ n, n < cb.data.length →
              (((⟨[1, 1, 2], [1, 0]⟩ : NDArray).data.getD n 0 = 0 → cb.data.getD n 0 = 0)
              ∧ ((⟨[1, 1, 2], [1, 0]⟩ : NDArray).data.getD n 0 = 1 → cd.data.getD n 0 = 1)
              ∧ (((⟨[1, 1, 2], [0, 1]⟩ : NDArray).data.getD n 0 = 0
                  ∨ (⟨[1, 1, 2], [0, 1]⟩ : NDArray).data.getD n 0 = 1)
                  → vl.data.getD n 0 = 0)
              ∧ cb.data.getD n 0 = color_burnSpec ((⟨[1, 1, 2], [0, 1]⟩ : NDArray).data.getD n 0)
                  ((⟨[1, 1, 2], [1, 0]⟩ : NDArray).data.getD n 0)
              ∧ cd.data.getD n 0 = color_dodgeSpec ((⟨[1, 1, 2], [0, 1]⟩ : NDArray).data.getD n 0)
                  ((⟨[1, 1, 2], [1, 0]⟩ : NDArray).data.getD n 0)
              ∧ vl.data.getD n 0 = vivid_lightSpec ((⟨[1, 1, 2], [0, 1]⟩ : NDArray).data.getD n 0)
                  ((⟨[1, 1, 2], [1, 0]⟩ : NDArray).data.getD n 0)) :=
  ⟨rfl, by decide, by decide,
    c2_guards ⟨[1, 1, 2], [0, 1]⟩ ⟨[1, 1, 2], [1, 0]⟩ rfl (by decide) (by decide)⟩


/-! An object-store model for the frame-effect claim: numpy arrays are
buffers in a store, referenced by index.  Each pipeline stage is modelled
with the allocations and in-place writes the source performs: the blend
bodies build a fresh output array (`a.copy()` plus masked writes, or a
fresh arithmetic result), `_resize_array` fills a fresh `np.full` array,
`_grayscale_to_rgb` fills a fresh `np.zeros` array, the fade and mask
mixes build fresh arithmetic results (skipping allocation when they are
no-ops), and `will_clip` writes in place into the buffer handed to it. -/

/-- A store of array objects; a reference is an index into it. -/
abbrev Store := List NDArray

/-- Read a buffer (a dangling reference reads an empty array). -/
def sget (st : Store) (r : ℕ) : NDArray := st.getD r ⟨[], []⟩

/-- Allocate a fresh buffer holding `v`, returning its reference. -/
def salloc (st : Store) (v : NDArray) : Store × ℕ := (st ++ [v], st.length)

/-- In-place write of buffer `r`. -/
def sset (st : Store) (r : ℕ) (v : NDArray) : Store := st.set r v

/-- A blend body other than `replace`: allocates a fresh output buffer
(`a.copy()` with masked writes, or a fresh arithmetic result, touch only
that new buffer). -/
def elemwiseSt (f : ℚ → ℚ → ℚ) (st : Store) (ra rb : ℕ) : Except String (Store × ℕ) :=
  match elemwise f (sget st ra) (sget st rb) with
  | .error e => .error e
  | .ok v => .ok (salloc st v)

/-- The `replace` body: `return b`, no allocation, the blend reference is
returned as is. -/
def replaceSt (st : Store) (_ra rb : ℕ) : Except String (Store × ℕ) := .ok (st, rb)

/-- `will_match_size` stage: `_resize_array` always allocates `np.full`
buffers for both arrays and writes the originals into them. -/
def will_match_sizeSt (st : Store) (ra rb : ℕ) : Except String (Store × ℕ × ℕ) :=
  match will_match_size (sget st ra) (sget st rb) with
  | .error e => .error e
  | .ok (a2, b2) =>
    let p1 := salloc st a2
    let p2 := salloc p1.1 b2
    .ok (p2.1, p1.2, p2.2)

/-- `will_colorize` stage: promotion allocates the three-channel array,
pass-through keeps the references. -/
def will_colorizeSt (st : Store) (colorize : Bool) (ra rb : ℕ) : Store × ℕ × ℕ :=
  let a := sget st ra
  let b := sget st rb
  if colorize then
    if a.shape.length + 1 = b.shape.length ∧ b.shape.getLast? = some 3 then
      let p := salloc st (grayscale_to_rgb a)
      (p.1, p.2, rb)
    else if b.shape.length + 1 = a.shape.length ∧ a.shape.getLast? = some 3 then
      let p := salloc st (grayscale_to_rgb b)
      (p.1, ra, p.2)
    else (st, ra, rb)
  else (st, ra, rb)

/-- `can_fade` stage: `fade == 1.0` returns the buffer unchanged,
otherwise the mix `a + (ab - a) * fade` is a fresh arithmetic result. -/
def can_fadeSt (st : Store) (ra rab : ℕ) (fade : ℚ) : Except String (Store × ℕ) :=
  if fade = 1 then .ok (st, rab)
  else match can_fade (sget st ra) (sget st rab) fade with
    | .error e => .error e
    | .ok v => .ok (salloc st v)

/-- `can_mask` stage: no mask returns the buffer unchanged, otherwise the
mix `a * (1 - mask) + ab * mask` is a fresh arithmetic result. -/
def can_maskSt (st : Store) (ra rab : ℕ) (rmask : Option ℕ) : Except String (Store × ℕ) :=
  match rmask with
  | none => .ok (st, rab)
  | some rm =>
    match can_mask (sget st ra) (sget st rab) (some (sget st rm)) with
    | .error e => .error e
    | .ok v => .ok (salloc st v)

/-- `will_clip` stage: mutates the buffer handed to it in place and
returns the same reference. -/
def will_clipSt (st : Store) (rab : ℕ) : Store × ℕ :=
  (sset st rab (will_clip (sget st rab)), rab)

/-- A composed catalog operation over the store: the full decorator stack
around a blend body; `clip` is false exactly for `replace`, whose body is
`replaceSt` instead of an allocating body. -/
def composedOpSt (clip : Bool)
    (core : Store → ℕ → ℕ → Except String (Store × ℕ))
    (st0 : Store) (ra rb : ℕ) (colorize : Bool) (fade : ℚ)
    (rmask : Option ℕ) : Except String (Store × ℕ) := do
  let t1 ← will_match_sizeSt st0 ra rb
  let t2 := will_colorizeSt t1.1 colorize t1.2.1 t1.2.2
  let t3 ← core t2.1 t2.2.1 t2.2.2
  let t4 ← can_fadeSt t3.1 ra t3.2 fade
  let t5 ← can_maskSt t4.1 ra t4.2 rmask
  .ok (if clip then will_clipSt t5.1 t5.2 else (t5.1, t5.2))

/-- Store extension: every buffer present before is unchanged after. -/
def Extends (st0 st1 : Store) : Prop :=
  st0.length ≤ st1.length ∧ ∀ i, i < st0.length → sget st1 i = sget st0 i

theorem Extends.refl (st : Store) : Extends st st := ⟨le_refl _, fun _ _ => rfl⟩

theorem Extends.trans {s1 s2 s3 : Store} (h1 : Extends s1 s2) (h2 : Extends s2 s3) :
    Extends s1 s3 :=
  ⟨le_trans h1.1 h2.1, fun i hi => (h2.2 i (lt_of_lt_of_le hi h1.1)).trans (h1.2 i hi)⟩

theorem salloc_extends (st : Store) (v : NDArray) : Extends st (salloc st v).1 := by
  refine ⟨by simp [salloc], fun i hi => ?_⟩
  simp only [salloc, sget]
  rw [List.getD_eq_getElem?_getD, List.getD_eq_getElem?_getD,
    List.getElem?_append_left hi]

theorem sset_extends {st0 st : Store} {r : ℕ} (h : Extends st0 st)
    (hr : st0.length ≤ r) (v : NDArray) : Extends st0 (sset st r v) := by
  refine ⟨by simp [sset]; exact h.1, fun i hi => ?_⟩
  have hne : i ≠ r := by omega
  rw [← h.2 i hi]
  simp only [sset, sget]
  rw [List.getD_eq_getElem?_getD, List.getD_eq_getElem?_getD,
    List.getElem?_set_ne (Ne.symm hne)]



theorem will_match_sizeSt_extends {st : Store} {ra rb : ℕ} {t : Store × ℕ × ℕ}
    (h : will_match_sizeSt st ra rb = .ok t) : Extends st t.1 := by
  unfold will_match_sizeSt at h
  cases hws : will_match_size (sget st ra) (sget st rb) with
  | error e => rw [hws] at h; cases h
  | ok p =>
    obtain ⟨a2, b2⟩ := p
    rw [hws] at h
    cases h
    exact (salloc_extends st a2).trans (salloc_extends _ b2)

theorem will_colorizeSt_extends (st : Store) (colorize : Bool) (ra rb : ℕ) :
    Extends st (will_colorizeSt st colorize ra rb).1 := by
  simp only [will_colorizeSt]
  split_ifs
  · exact salloc_extends _ _
  · exact salloc_extends _ _
  · exact Extends.refl st
  · exact Extends.refl st

theorem elemwiseSt_spec {f : ℚ → ℚ → ℚ} {st : Store} {ra rb : ℕ} {t : Store × ℕ}
    (h : elemwiseSt f st ra rb = .ok t) : Extends st t.1 ∧ st.length ≤ t.2 := by
  unfold elemwiseSt at h
  cases he : elemwise f (sget st ra) (sget st rb) with
  | error e => rw [he] at h; cases h
  | ok v =>
    rw [he] at h
    cases h
    exact ⟨salloc_extends st v, le_refl _⟩

theorem can_fadeSt_spec {st : Store} {ra rab : ℕ} {fade : ℚ} {t : Store × ℕ}
    (h : can_fadeSt st ra rab fade = .ok t) :
    Extends st t.1 ∧ (t.2 = rab ∨ st.length ≤ t.2) := by
  unfold can_fadeSt at h
  split_ifs at h
  · cases h
    exact ⟨Extends.refl st, Or.inl rfl⟩
  · cases he : can_fade (sget st ra) (sget st rab) fade with
    | error e => rw [he] at h; cases h
    | ok v =>
      rw [he] at h
      cases h
      exact ⟨salloc_extends st v, Or.inr (le_refl _)⟩

theorem can_maskSt_spec {st : Store} {ra rab : ℕ} {rmask : Option ℕ} {t : Store × ℕ}
    (h : can_maskSt st ra rab rmask = .ok t) :
    Extends st t.1 ∧ (t.2 = rab ∨ st.length ≤ t.2) := by
  cases rmask with
  | none =>
    simp only [can_maskSt] at h
    cases h
    exact ⟨Extends.refl st, Or.inl rfl⟩
  | some rm =>
    simp only [can_maskSt] at h
    cases he : can_mask (sget st ra) (sget st rab) (some (sget st rm)) with
    | error e => rw [he] at h; cases h
    | ok v =>
      rw [he] at h
      cases h
      exact ⟨salloc_extends st v, Or.inr (le_refl _)⟩

/-- C10: on every input on which a composed catalog operation returns
normally, every buffer that existed before the call — in particular the
caller's base, blend and mask arrays — is unchanged afterwards: the blend
bodies, the resize and promotion stages and the fade and mask mixes only
allocate fresh buffers, and the in-place clip stage writes only the
freshly computed result, whose reference is always past the end of the
caller's store. -/
theorem c10_no_input_mutation :
    (∀ (f : ℚ → ℚ → ℚ) (clip : Bool) (st0 : Store) (ra rb : ℕ) (colorize : Bool)
        (fade : ℚ) (rmask : Option ℕ) (t : Store × ℕ),
        composedOpSt clip (elemwiseSt f) st0 ra rb colorize fade rmask = .ok t →
        ∀ i, i < st0.length → sget t.1 i = sget st0 i)
      ∧ (∀ (st0 : Store) (ra rb : ℕ) (colorize : Bool) (fade : ℚ) (rmask : Option ℕ)
          (t : Store × ℕ),
          composedOpSt false replaceSt st0 ra rb colorize fade rmask = .ok t →
          ∀ i, i < st0.length → sget t.1 i = sget st0 i) := by
  constructor
  · intro f clip st0 ra rb colorize fade rmask t h i hi
    simp only [composedOpSt] at h
    cases h1 : will_match_sizeSt st0 ra rb with
    | error e => rw [h1, error_bind] at h; cases h
    | ok t1 =>
      rw [h1, ok_bind] at h
      have e1 : Extends st0 t1.1 := will_match_sizeSt_extends h1
      set col := will_colorizeSt t1.1 colorize t1.2.1 t1.2.2 with hcol
      have e2 : Extends t1.1 col.1 := will_colorizeSt_extends t1.1 colorize t1.2.1 t1.2.2
      cases h3 : elemwiseSt f col.1 col.2.1 col.2.2 with
      | error e => rw [h3, error_bind] at h; cases h
      | ok t3 =>
        rw [h3, ok_bind] at h
        obtain ⟨e3, hr3⟩ := elemwiseSt_spec h3
        cases h4 : can_fadeSt t3.1 ra t3.2 fade with
        | error e => rw [h4, error_bind] at h; cases h
        | ok t4 =>
          rw [h4, ok_bind] at h
          obtain ⟨e4, hr4⟩ := can_fadeSt_spec h4
          cases h5 : can_maskSt t4.1 ra t4.2 rmask with
          | error e => rw [h5, error_bind] at h; cases h
          | ok t5 =>
            rw [h5, ok_bind] at h
            obtain ⟨e5, hr5⟩ := can_maskSt_spec h5
            have ex05 : Extends st0 t5.1 :=
              ((((e1.trans e2).trans e3).trans e4).trans e5)
            have hb : st0.length ≤ t5.2 := by
              have l1 := e1.1
              have l2 := e2.1
              have l3 := e3.1
              have l4 := e4.1
              rcases hr5 with hq | hq
              · rcases hr4 with hp | hp
                · omega
                · omega
              · omega
            cases h
            cases clip with
            | true =>
              have := sset_extends ex05 hb (will_clip (sget t5.1 t5.2))
              simpa [will_clipSt, sset] using this.2 i hi
            | false => exact ex05.2 i hi
  · intro st0 ra rb colorize fade rmask t h i hi
    simp only [composedOpSt] at h
    cases h1 : will_match_sizeSt st0 ra rb with
    | error e => rw [h1, error_bind] at h; cases h
    | ok t1 =>
      rw [h1, ok_bind] at h
      have e1 : Extends st0 t1.1 := will_match_sizeSt_extends h1
      set col := will_colorizeSt t1.1 colorize t1.2.1 t1.2.2 with hcol
      have e2 : Extends t1.1 col.1 := will_colorizeSt_extends t1.1 colorize t1.2.1 t1.2.2
      rw [replaceSt, ok_bind] at h
      cases h4 : can_fadeSt col.1 ra col.2.2 fade with
      | error e => rw [h4, error_bind] at h; cases h
      | ok t4 =>
        rw [h4, ok_bind] at h
        obtain ⟨e4, hr4⟩ := can_fadeSt_spec h4
        cases h5 : can_maskSt t4.1 ra t4.2 rmask with
        | error e => rw [h5, error_bind] at h; cases h
        | ok t5 =>
          rw [h5, ok_bind] at h
          obtain ⟨e5, hr5⟩ := can_maskSt_spec h5
          cases h
          exact ((((e1.trans e2).trans e4).trans e5)).2 i hi


/-- C10 (witness): a concrete clipped `darker` run over a two-buffer
store leaves both caller buffers intact while allocating the resized,
blended and clipped buffers past them. -/
theorem c10_witness :
    composedOpSt true (elemwiseSt darkerPx)
        [⟨[1, 1, 1], [2]⟩, ⟨[1, 1, 1], [0]⟩] 0 1 true 1 none
      = .ok ([⟨[1, 1, 1], [2]⟩, ⟨[1, 1, 1], [0]⟩, ⟨[1, 1, 1], [2]⟩,
          ⟨[1, 1, 1], [0]⟩, ⟨[1, 1, 1], [0]⟩], 4)
      ∧ sget [⟨[1, 1, 1], [2]⟩, ⟨[1, 1, 1], [0]⟩, ⟨[1, 1, 1], [2]⟩,
          ⟨[1, 1, 1], [0]⟩, ⟨[1, 1, 1], [0]⟩] 0
        = sget [⟨[1, 1, 1], [2]⟩, ⟨[1, 1, 1], [0]⟩] 0
      ∧ sget [⟨[1, 1, 1], [2]⟩, ⟨[1, 1, 1], [0]⟩, ⟨[1, 1, 1], [2]⟩,
          ⟨[1, 1, 1], [0]⟩, ⟨[1, 1, 1], [0]⟩] 1
        = sget [⟨[1, 1, 1], [2]⟩, ⟨[1, 1, 1], [0]⟩] 1 :=
  ⟨rfl,
    c10_no_input_mutation.1 darkerPx true [⟨[1, 1, 1], [2]⟩, ⟨[1, 1, 1], [0]⟩]
      0 1 true 1 none
      ([⟨[1, 1, 1], [2]⟩, ⟨[1, 1, 1], [0]⟩, ⟨[1, 1, 1], [2]⟩,
        ⟨[1, 1, 1], [0]⟩, ⟨[1, 1, 1], [0]⟩], 4) rfl 0 (by decide),
    c10_no_input_mutation.1 darkerPx true [⟨[1, 1, 1], [2]⟩, ⟨[1, 1, 1], [0]⟩]
      0 1 true 1 none
      ([⟨[1, 1, 1], [2]⟩, ⟨[1, 1, 1], [0]⟩, ⟨[1, 1, 1], [2]⟩,
        ⟨[1, 1, 1], [0]⟩, ⟨[1, 1, 1], [0]⟩], 4) rfl 1 (by decide)⟩

end ImgBlender
